import Mathlib

/-!
DeOSS gateway: the retrieval pipeline of `node/getHandle.go`.

A shallow embedding of `getHandle` and `fetchFiles` (package `node`) together with
the admission pool `max_concurrent_get_ch`.

Modelling conventions.

* The local filesystem is a map from paths to the content of regular files.
  `os.Stat` succeeds exactly on paths that hold a file, `os.Remove` deletes the
  file, `f.Write` appends to the file the handle was created for.
* Methods of `Node` that live outside `getHandle.go` (ledger client, peer network,
  erasure codec, cache store, access control) are fields of `Env`. They read an
  abstract external state `σ`; the ones that act on the world return the new
  external state and the new filesystem.
* Every ledger, peer, codec and cache call is appended to `State.trace`.
* Log lines (`n.Query`) have no effect on control flow and are left out.
* Machine integers are naturals reduced modulo `2 ^ 64` where the source computes
  in `uint64` or `int`.
-/

namespace DeOSS

/-! ## Bytes, paths, filesystem -/

abbrev Bytes := List UInt8

/-- The regular files of the local filesystem. -/
abbrev FS := String → Option Bytes

namespace FS

/-- Create or truncate-and-fill the file at `p`. -/
def write (fs : FS) (p : String) (b : Bytes) : FS :=
  fun q => if q = p then some b else fs q

/-- The effect of `os.Remove(p)`. -/
def remove (fs : FS) (p : String) : FS :=
  fun q => if q = p then none else fs q

/-- The effect of `f.Write(b)` on the file that `f` was created for. -/
def append (fs : FS) (p : String) (b : Bytes) : FS :=
  match fs p with
  | some c => fs.write p (c ++ b)
  | none => fs

end FS

/-- The path built by `filepath.Join`: empty elements are dropped, the rest joined by a
slash. The final `Clean` is the identity on the directory names and hex hashes joined
here and is left out. -/
def Join (elem : List String) : String :=
  String.intercalate "/" (elem.filter (fun e => e ≠ ""))

/-! ## Constants of the source and of `configs/system.go` -/

namespace configs

def Name : String := "deoss"

def NameSpace : String := Name

def Version : String := Name ++ " " ++ "v0.3.7 pre-release"

def Description : String := "Object storage service based on CESS network"

end configs

def max_concurrent_get : Nat := 30

/-- The fragment hash compared against in `fetchFiles` (line 412). -/
def sentinelHash : String :=
  "080acf35a507ac9849cfcba47dc2ad83e01b75663a516279c8b9d243b719643e"

/-- The value of `chain.FileHashLen`, which is also `len(chain.FileHash{})`. -/
def FileHashLen : Nat := 64

def StatusOK : Nat := 200

def StatusBadRequest : Nat := 400

def StatusForbidden : Nat := 403

def StatusNotFound : Nat := 404

def StatusTooManyRequests : Nat := 429

def StatusInternalServerError : Nat := 500

/-! ## The admission pool: a buffered channel of tokens -/

/-- A buffered `chan bool` whose buffered values are all `true`. -/
structure Chan where
  cap : Nat
  tokens : Nat
  closed : Bool
deriving DecidableEq, Repr

/-- The result of `v, ok := <-ch`. -/
inductive Recv where
  | value (ch : Chan)
  | closedEmpty
  | blocks
deriving DecidableEq, Repr

namespace Chan

/-- A receive `<-ch`: takes a buffered value when there is one; on an empty channel it
reports `ok = false` only when the channel is closed and otherwise parks the goroutine. -/
def recv (c : Chan) : Recv :=
  if 0 < c.tokens then .value { c with tokens := c.tokens - 1 }
  else if c.closed then .closedEmpty
  else .blocks

/-- A send `ch <- true` on a channel with no parked receiver: `none` when the buffer
is full and the sender parks. -/
def send (c : Chan) : Option Chan :=
  if c.tokens < c.cap then some { c with tokens := c.tokens + 1 } else none

end Chan

/-- The loop of `init`: `n` sends into the channel. -/
def fill : Nat → Chan → Chan
  | 0, c => c
  | n + 1, c =>
    match c.send with
    | some c1 => fill n c1
    | none => c

/-- The package initialiser: `max_concurrent_get_ch` after `init`. -/
def init : Chan :=
  fill max_concurrent_get { cap := max_concurrent_get, tokens := 0, closed := false }

/-- The requests of the server as far as the pool sees them. -/
structure Gate where
  ch : Chan
  running : Nat
  parked : Nat
  busy : Nat
deriving DecidableEq, Repr

inductive Event where
  | start
  | finish
deriving DecidableEq, Repr

namespace Gate

/-- One scheduling step. `start`: a request enters `getHandle` and executes the receive
of line 81. `finish`: a running request leaves `getHandle` and its deferred send of
line 85 runs; a parked receiver, if there is one, takes the token directly. -/
def step (g : Gate) : Event → Gate
  | .start =>
    match g.ch.recv with
    | .value c1 => { g with ch := c1, running := g.running + 1 }
    | .closedEmpty => { g with busy := g.busy + 1 }
    | .blocks => { g with parked := g.parked + 1 }
  | .finish =>
    if g.running = 0 then g
    else if 0 < g.parked then { g with parked := g.parked - 1 }
    else
      match g.ch.send with
      | some c1 => { g with ch := c1, running := g.running - 1 }
      | none => g

def run (g : Gate) (evs : List Event) : Gate :=
  evs.foldl step g

/-- The server right after `init`. -/
def start : Gate :=
  { ch := init, running := 0, parked := 0, busy := 0 }

end Gate

/-! ## Ledger and network data (types of the SDK, as far as the source reads them) -/

namespace chain

structure FragmentInfo where
  Hash : String
  Avail : Bool
  Miner : String
deriving DecidableEq, Repr

structure SegmentInfo where
  Hash : String
  FragmentList : List FragmentInfo
deriving DecidableEq, Repr

structure UserBrief where
  User : String
  FileName : String
  BucketName : String
deriving DecidableEq, Repr

structure FileMetadata where
  SegmentList : List SegmentInfo
  Owner : List UserBrief
  FileSize : Nat
  Completion : Nat
  State : Nat
deriving DecidableEq, Repr

structure StorageOrder where
  FileSize : Nat
deriving DecidableEq, Repr

structure MinerInfo where
  PeerId : String
deriving DecidableEq, Repr

structure BucketInfo where
  FileList : List String
  Authority : List String
deriving DecidableEq, Repr

end chain

structure AddrInfo where
  ID : String
deriving DecidableEq, Repr

/-! ## Types declared in `getHandle.go` -/

structure RtnUserBrief where
  User : String
  FileName : String
  BucketName : String
deriving DecidableEq, Repr

structure FragmentInfo where
  FragmentHash : String
  Avail : Bool
  Miner : String
deriving DecidableEq, Repr

structure SegmentInfo where
  SegmentHash : String
  FragmentList : List FragmentInfo
deriving DecidableEq, Repr

structure FileMetaData where
  Completion : Nat
  State : String
  SegmentList : List SegmentInfo
  Owner : List RtnUserBrief
deriving DecidableEq, Repr

/-! ## Requests, responses, effects -/

/-- What `getHandle` reads from the `gin.Context`. -/
structure Request where
  account : String
  cipher : String
  queryName : String
  fid : String
  operation : String
deriving DecidableEq, Repr

inductive Body where
  | str (s : String)
  | null
  | bucket (Num : Nat) (Owners : List String) (Files : List String)
  | bucketList (names : List String)
  | fileMetadata (m : FileMetaData)
deriving DecidableEq, Repr

/-- What the handler does with the request: `c.JSON`, `c.File` (with the content the
path holds at that moment), a panic that leaves `getHandle`, or `os.Exit`. -/
inductive Response where
  | JSON (code : Nat) (obj : Body)
  | File (filepath : String) (content : Option Bytes)
  | panic
  | exit
deriving DecidableEq, Repr

namespace Response

/-- The handler answered Not Found. -/
def isNotFound : Response → Bool
  | .JSON code _ => code == StatusNotFound
  | _ => false

end Response

/-- A call to a collaborator. -/
inductive Call where
  | QueryFile (fid : String)
  | QueryDealMap (fid : String)
  | QueryAllOssPeerId
  | QueryMinerItems (miner : String)
  | QueryBucket (pkey : String) (name : String)
  | QueryAllBucketName (pkey : String)
  | GetPeer (peerid : String)
  | Connect (addr : AddrInfo)
  | ReadDataAction (peer : String) (fid : String) (fpath : String) (size : Int)
  | ReadFileAction (peer : String) (roothash : String) (fragment : String) (fpath : String)
      (size : Nat)
  | RSRestore (outpath : String) (shardspath : List String)
  | GetCacheRecord (fid : String)
  | MoveFileToCache (fid : String) (fpath : String)
deriving DecidableEq, Repr

namespace Call

/-- Queries answered by the ledger. -/
def isLedger : Call → Bool
  | .QueryFile _ => true
  | .QueryDealMap _ => true
  | .QueryAllOssPeerId => true
  | .QueryMinerItems _ => true
  | .QueryBucket _ _ => true
  | .QueryAllBucketName _ => true
  | _ => false

/-- Calls into the peer network. -/
def isPeer : Call → Bool
  | .GetPeer _ => true
  | .Connect _ => true
  | .ReadDataAction _ _ _ _ => true
  | .ReadFileAction _ _ _ _ _ => true
  | _ => false

/-- Calls made only by the fragment-level path of `fetchFiles`. -/
def isFragmentLevel : Call → Bool
  | .QueryMinerItems _ => true
  | .ReadFileAction _ _ _ _ _ => true
  | .RSRestore _ _ => true
  | _ => false

end Call

/-- The collaborators of `getHandle.go`, over an external state `σ` (ledger, peer
network, cache store, tracked-file registry, access lists). -/
structure Env (σ : Type) where
  ERR_Empty : String
  ERR_NotFound : String
  ERR_RpcFailed : String
  ERR_MissingAccount : String
  ERR_InvalidAccount : String
  ERR_HeadOperation : String
  Active : Nat
  Calculate : Nat
  Missing : Nat
  Recovery : Nat
  DataShards : Nat
  ParShards : Nat
  FragmentSize : Nat
  SegmentSize : Nat
  FileDir : String
  ID : String
  ParsingPublickey : String → Except String String
  CheckBucketName : String → Bool
  EncodePublicKeyAsCessAccount : String → String × Option String
  base58Encode : String → String
  FindFile : FS → String → String → String
  createErr : String → Option String
  AccessControl : σ → String → Option String
  HasTrackFile : σ → String → Bool
  GetCacheRecord : σ → FS → String → Except String String
  MoveFileToCache : σ → FS → String → String → Option String × σ × FS
  QueryFile : σ → String → Except String chain.FileMetadata
  QueryDealMap : σ → String → Except String chain.StorageOrder
  QueryBucket : σ → String → String → Except String chain.BucketInfo
  QueryAllBucketName : σ → String → Except String (List String)
  QueryAllOssPeerId : σ → List String
  QueryMinerItems : σ → String → Except String chain.MinerInfo
  GetPeer : σ → String → Except String AddrInfo
  Connect : σ → AddrInfo → Option String × σ
  ReadDataAction : σ → FS → String → String → String → Int → Option String × σ × FS
  ReadFileAction : σ → FS → String → String → String → String → Nat → Option String × σ × FS
  RSRestore : FS → String → List String → Option String × FS

/-- The state a request runs against: the filesystem, the external state, and the calls
made so far. -/
structure State (σ : Type) where
  fs : FS
  ext : σ
  trace : List Call

namespace State

variable {σ : Type}

def log (st : State σ) (c : Call) : State σ :=
  { st with trace := st.trace ++ [c] }

end State

/-! ## `fetchFiles` -/

section fetch

variable {σ : Type}

/-- The result of one pass through a loop body of `fetchFiles`: go on with the loop
variables `a`, leave `fetchFiles` with `("", err)`, or panic. -/
inductive Step (σ : Type) (α : Type) where
  | next (a : α) (st : State σ)
  | abort (err : String) (st : State σ)
  | panic (st : State σ)

/-- The body of the inner loop of `fetchFiles` (lines 410 to 437) for the fragment in
slot `k`. `fragmentpaths[k] = fragmentpath` panics when `k` is out of range. -/
def fetchFragment (env : Env σ) (roothash dir : String) (k : Nat)
    (fragment : chain.FragmentInfo) (fragmentpaths : List String) (st : State σ) :
    Step σ (List String) :=
  let fragmentpath := Join [dir, fragment.Hash]
  if k < fragmentpaths.length then
    let fragmentpaths := fragmentpaths.set k fragmentpath
    if fragment.Hash ≠ sentinelHash then
      let st := st.log (.QueryMinerItems fragment.Miner)
      match env.QueryMinerItems st.ext fragment.Miner with
      | .error err => .abort err st
      | .ok miner =>
        let peerid := env.base58Encode miner.PeerId
        let st := st.log (.GetPeer peerid)
        match env.GetPeer st.ext peerid with
        | .error _ => .next fragmentpaths st
        | .ok addr =>
          let st := st.log (.Connect addr)
          match env.Connect st.ext addr with
          | (some _, ext) => .next fragmentpaths { st with ext := ext }
          | (none, ext) =>
            let st := { st with ext := ext }
            let st := st.log
              (.ReadFileAction addr.ID roothash fragment.Hash fragmentpath env.FragmentSize)
            match env.ReadFileAction st.ext st.fs addr.ID roothash fragment.Hash fragmentpath
                env.FragmentSize with
            | (_, ext, fs) => .next fragmentpaths { st with ext := ext, fs := fs }
    else
      match st.fs fragmentpath with
      | some _ => .next fragmentpaths st
      | none =>
        match env.createErr fragmentpath with
        | some _ => .next fragmentpaths st
        | none =>
          .next fragmentpaths
            { st with fs := st.fs.write fragmentpath (List.replicate env.FragmentSize 0) }
  else .panic st

namespace Step

/-- The state a loop body left behind. -/
def state {α : Type} : Step σ α → State σ
  | .next _ st => st
  | .abort _ st => st
  | .panic st => st

end Step

namespace Step

/-- The loop variables a completed loop yields; `none` after an abort or a panic. -/
def result {α : Type} : Step σ α → Option α
  | .next a _ => some a
  | .abort _ _ => none
  | .panic _ => none

end Step

/-- The inner loop `for k, fragment := range segment.FragmentList`. -/
def fetchFragments (env : Env σ) (roothash dir : String) :
    Nat → List chain.FragmentInfo → List String → State σ → Step σ (List String)
  | _, [], fragmentpaths, st => .next fragmentpaths st
  | k, fragment :: rest, fragmentpaths, st =>
    match fetchFragment env roothash dir k fragment fragmentpaths st with
    | .next fragmentpaths st => fetchFragments env roothash dir (k + 1) rest fragmentpaths st
    | .abort err st => .abort err st
    | .panic st => .panic st

/-- The outer loop `for _, segment := range fmeta.SegmentList` (lines 408 to 445). The
slice `fragmentpaths` is shared by all segments; the loop yields `segmentspath`. -/
def fetchSegments (env : Env σ) (roothash dir : String) :
    List chain.SegmentInfo → List String → List String → State σ → Step σ (List String)
  | [], _, segmentspath, st => .next segmentspath st
  | segment :: rest, fragmentpaths, segmentspath, st =>
    match fetchFragments env roothash dir 0 segment.FragmentList fragmentpaths st with
    | .abort err st => .abort err st
    | .panic st => .panic st
    | .next fragmentpaths st =>
      let segmentpath := Join [dir, segment.Hash]
      let st := st.log (.RSRestore segmentpath fragmentpaths)
      match env.RSRestore st.fs segmentpath fragmentpaths with
      | (some err, fs) => .abort err { st with fs := fs }
      | (none, fs) =>
        fetchSegments env roothash dir rest fragmentpaths (segmentspath ++ [segmentpath])
          { st with fs := fs }

/-- The capacity of the slice `os.ReadFile` returns for a file of `len` bytes: it
allocates one byte more than the file size and at least 512 bytes. -/
def readFileCap (len : Nat) : Nat :=
  max 512 (len + 1)

/-- The slice expression `buf[:n]` on a buffer returned by `os.ReadFile`: `none` is the
panic for `n` beyond the capacity; the spare capacity holds zero bytes. -/
def sliceTo (buf : Bytes) (n : Nat) : Option Bytes :=
  if n ≤ readFileCap buf.length then some (buf.take n ++ List.replicate (n - buf.length) 0)
  else none

/-- The expression `fmeta.FileSize.Uint64() - uint64(writecount*sconfig.SegmentSize)`. -/
def lastSegmentBytes (FileSize SegmentSize writecount : Nat) : Nat :=
  (FileSize % 2 ^ 64 + 2 ^ 64 - (writecount * SegmentSize) % 2 ^ 64) % 2 ^ 64

inductive WriteResult where
  | done (writecount : Nat) (fs : FS)
  | panic (fs : FS)
  | exit (fs : FS)

/-- The assembly loop of `fetchFiles` (lines 451 to 463) over `segmentspath`, writing
through the handle of `userfile`; `nseg` is `len(fmeta.SegmentList)`. -/
def writeSegments (SegmentSize FileSize nseg : Nat) (userfile : String) :
    List String → Nat → FS → WriteResult
  | [], writecount, fs => .done writecount fs
  | p :: rest, writecount, fs =>
    match fs p with
    | none => .exit fs
    | some buf =>
      if writecount + 1 ≥ nseg then
        match sliceTo buf (lastSegmentBytes FileSize SegmentSize writecount) with
        | none => .panic fs
        | some b =>
          writeSegments SegmentSize FileSize nseg userfile rest (writecount + 1)
            (fs.append userfile b)
      else
        writeSegments SegmentSize FileSize nseg userfile rest (writecount + 1)
          (fs.append userfile buf)

/-- The deferred function of lines 396 to 403. -/
def cleanup (basedir : String) (segments : List chain.SegmentInfo) (fs : FS) : FS :=
  segments.foldl
    (fun fs segment =>
      segment.FragmentList.foldl (fun fs fragment => fs.remove (Join [basedir, fragment.Hash]))
        (fs.remove (Join [basedir, segment.Hash])))
    fs

/-- The loop over `fmeta.Owner` (lines 385 to 394): the first owner copy found on disk. -/
def ownerCopy (env : Env σ) (roothash : String) : List chain.UserBrief → FS → Option String
  | [], _ => none
  | v :: rest, fs =>
    match env.EncodePublicKeyAsCessAccount v.User with
    | (_, some _) => ownerCopy env roothash rest fs
    | (acc, none) =>
      match fs (Join [env.FileDir, acc, roothash, roothash]) with
      | some _ => some (Join [env.FileDir, acc, roothash, roothash])
      | none => ownerCopy env roothash rest fs

/-- How a call of `fetchFiles` ends: `(path, nil)`, `("", err)`, a panic, or `os.Exit`. -/
inductive Outcome where
  | ok (path : String)
  | fail (err : String)
  | panic
  | exit
deriving DecidableEq, Repr

/-- The method `Node.fetchFiles` (lines 364 to 469). -/
def fetchFiles (env : Env σ) (roothash dir _cipher : String) (st : State σ) :
    Outcome × State σ :=
  let userfile := Join [dir, roothash]
  match st.fs userfile with
  | some _ => (.ok userfile, st)
  | none =>
    match env.createErr userfile with
    | some err => (.fail err, st)
    | none =>
      let st := { st with fs := st.fs.write userfile [] }
      let st := st.log (.QueryFile roothash)
      match env.QueryFile st.ext roothash with
      | .error err => (.fail err, st)
      | .ok fmeta =>
        match ownerCopy env roothash fmeta.Owner st.fs with
        | some p => (.ok p, st)
        | none =>
          match fetchSegments env roothash dir fmeta.SegmentList
              (List.replicate (env.DataShards + env.ParShards) "") [] st with
          | .abort err st => (.fail err, { st with fs := cleanup dir fmeta.SegmentList st.fs })
          | .panic st => (.panic, { st with fs := cleanup dir fmeta.SegmentList st.fs })
          | .next segmentspath st =>
            if segmentspath.length ≠ fmeta.SegmentList.length then
              (.fail "download failed", { st with fs := cleanup dir fmeta.SegmentList st.fs })
            else
              match writeSegments env.SegmentSize fmeta.FileSize fmeta.SegmentList.length
                  userfile segmentspath 0 st.fs with
              | .exit fs => (.exit, { st with fs := fs })
              | .panic fs => (.panic, { st with fs := cleanup dir fmeta.SegmentList fs })
              | .done writecount fs =>
                if writecount ≠ fmeta.SegmentList.length then
                  (.fail "write failed", { st with fs := cleanup dir fmeta.SegmentList fs })
                else (.ok userfile, { st with fs := cleanup dir fmeta.SegmentList fs })

end fetch

/-! ## `getHandle` -/

section handle

variable {σ : Type}

/-- The conversion `int64(size)` of a `uint64`. -/
def int64 (size : Nat) : Int :=
  if size % 2 ^ 64 < 2 ^ 63 then ((size % 2 ^ 64 : Nat) : Int)
  else ((size % 2 ^ 64 : Nat) : Int) - 2 ^ 64

/-- The bucket and bucket-list queries (lines 126 to 197), taken when the name does
not have the length of a file hash. -/
def bucketQuery (env : Env σ) (req : Request) (st : State σ) : Response × State σ :=
  if req.account = "" then (.JSON StatusBadRequest (.str env.ERR_MissingAccount), st)
  else
    match env.ParsingPublickey req.account with
    | .error _ => (.JSON StatusBadRequest (.str env.ERR_InvalidAccount), st)
    | .ok pkey =>
      if env.CheckBucketName req.queryName then
        let st := st.log (.QueryBucket pkey req.queryName)
        match env.QueryBucket st.ext pkey req.queryName with
        | .error err =>
          if err = env.ERR_Empty then (.JSON StatusNotFound (.str "NotFound"), st)
          else (.JSON StatusInternalServerError (.str "InternalError"), st)
        | .ok bucketInfo =>
          (.JSON StatusOK
            (.bucket bucketInfo.FileList.length
              (bucketInfo.Authority.map (fun a => (env.EncodePublicKeyAsCessAccount a).1))
              bucketInfo.FileList), st)
      else if req.queryName = "*" then
        let st := st.log (.QueryAllBucketName pkey)
        match env.QueryAllBucketName st.ext pkey with
        | .error err =>
          if err = env.ERR_Empty then (.JSON StatusNotFound (.str "NotFound"), st)
          else (.JSON StatusInternalServerError (.str "InternalError"), st)
        | .ok bucketList => (.JSON StatusOK (.bucketList bucketList), st)
      else (.JSON StatusBadRequest (.str "InvalidParameter.Name"), st)

/-- The `switch int(fmeta.State)` of lines 232 to 243. -/
def stateName (env : Env σ) (s : Nat) : String :=
  if s = env.Active then "Active"
  else if s = env.Calculate then "Calculate"
  else if s = env.Missing then "Missing"
  else if s = env.Recovery then "Recovery"
  else "Unknown"

/-- The summary built from the ledger metadata in lines 231 to 259. -/
def renderMetadata (env : Env σ) (fmeta : chain.FileMetadata) : FileMetaData :=
  { Completion := fmeta.Completion % 2 ^ 32
    State := stateName env fmeta.State
    Owner := fmeta.Owner.map (fun o =>
      { User := (env.EncodePublicKeyAsCessAccount o.User).1
        FileName := o.FileName
        BucketName := o.BucketName })
    SegmentList := fmeta.SegmentList.map (fun s =>
      { SegmentHash := s.Hash
        FragmentList := s.FragmentList.map (fun f =>
          { FragmentHash := f.Hash
            Avail := f.Avail
            Miner := (env.EncodePublicKeyAsCessAccount f.Miner).1 }) }) }

/-- The branch `operation == "view"` (lines 202 to 263). -/
def viewFile (env : Env σ) (req : Request) (st : State σ) : Response × State σ :=
  let st := st.log (.QueryFile req.queryName)
  match env.QueryFile st.ext req.queryName with
  | .error err =>
    if err ≠ env.ERR_Empty then (.JSON StatusInternalServerError (.str env.ERR_RpcFailed), st)
    else
      let st := st.log (.QueryDealMap req.queryName)
      match env.QueryDealMap st.ext req.queryName with
      | .error err =>
        if err ≠ env.ERR_Empty then
          (.JSON StatusInternalServerError (.str env.ERR_RpcFailed), st)
        else if !env.HasTrackFile st.ext req.queryName then
          (.JSON StatusNotFound (.str "NotFound"), st)
        else (.JSON StatusOK (.str "storage order created"), st)
      | .ok _ => (.JSON StatusOK (.str "storage order created"), st)
  | .ok fmeta => (.JSON StatusOK (.fileMetadata (renderMetadata env fmeta)), st)

/-- The cache lookup of the download branch (lines 272 to 283): the cached path on a
hit, `none` on a miss. -/
def cacheLookup (env : Env σ) (queryName : String) (st : State σ) : Option String × State σ :=
  let st := st.log (.GetCacheRecord queryName)
  match env.GetCacheRecord st.ext st.fs queryName with
  | .error _ => (none, st)
  | .ok fpath =>
    match st.fs fpath with
    | none => (none, st)
    | some content =>
      if content.length > 0 then (some fpath, st)
      else (none, { st with fs := st.fs.remove fpath })

/-- The loop over `peerList` (lines 314 to 336): `true` when `ReadDataAction` fetched
the whole file from some peer gateway. -/
def tryGateways (env : Env σ) (queryName fpath : String) (size : Int) :
    List String → State σ → Bool × State σ
  | [], st => (false, st)
  | v :: rest, st =>
    let st := st.log (.GetPeer v)
    match env.GetPeer st.ext v with
    | .error _ => tryGateways env queryName fpath size rest st
    | .ok addr =>
      if env.ID = v then tryGateways env queryName fpath size rest st
      else
        let st := st.log (.Connect addr)
        match env.Connect st.ext addr with
        | (some _, ext) => tryGateways env queryName fpath size rest { st with ext := ext }
        | (none, ext) =>
          let st := { st with ext := ext }
          let st := st.log (.ReadDataAction addr.ID queryName fpath size)
          match env.ReadDataAction st.ext st.fs addr.ID queryName fpath size with
          | (some _, ext, fs) =>
            tryGateways env queryName fpath size rest { st with ext := ext, fs := fs }
          | (none, ext, fs) => (true, { st with ext := ext, fs := fs })

/-- The call `c.File(fpath)` followed by `n.MoveFileToCache(queryName, fpath)`. -/
def serveAndCache (env : Env σ) (queryName fpath : String) (st : State σ) :
    Response × State σ :=
  let resp := Response.File fpath (st.fs fpath)
  let st := st.log (.MoveFileToCache queryName fpath)
  match env.MoveFileToCache st.ext st.fs queryName fpath with
  | (_, ext, fs) => (resp, { st with ext := ext, fs := fs })

/-- The text of the answer of lines 340 and 341. -/
def pendingOrderMessage : String :=
  "During the order transaction, please go to the original deoss to download the file."

/-- Lines 311 to 358: whole-file copy from a peer gateway, then the fragment path. -/
def transfer (env : Env σ) (req : Request) (completion : Bool) (size : Nat) (st : State σ) :
    Response × State σ :=
  let fpath := Join [env.FileDir, req.queryName]
  let st := st.log .QueryAllOssPeerId
  match tryGateways env req.queryName fpath (int64 size) (env.QueryAllOssPeerId st.ext) st with
  | (true, st) => serveAndCache env req.queryName fpath st
  | (false, st) =>
    if !completion then
      (.JSON StatusInternalServerError (.str pendingOrderMessage), st)
    else
      match fetchFiles env req.queryName env.FileDir req.cipher st with
      | (.fail _, st) =>
        (.JSON StatusInternalServerError (.str "File download failed, please try again later."),
          st)
      | (.ok fpath, st) => serveAndCache env req.queryName fpath st
      | (.panic, st) => (.panic, st)
      | (.exit, st) => (.exit, st)

/-- Lines 285 to 309: resolution of the identifier on the ledger. -/
def resolve (env : Env σ) (req : Request) (st : State σ) : Response × State σ :=
  let st := st.log (.QueryFile req.queryName)
  match env.QueryFile st.ext req.queryName with
  | .error err =>
    if err ≠ env.ERR_Empty then (.JSON StatusInternalServerError (.str env.ERR_RpcFailed), st)
    else
      let st := st.log (.QueryDealMap req.queryName)
      match env.QueryDealMap st.ext req.queryName with
      | .error err =>
        if err ≠ env.ERR_Empty then
          (.JSON StatusInternalServerError (.str env.ERR_RpcFailed), st)
        else (.JSON StatusNotFound (.str env.ERR_NotFound), st)
      | .ok order => transfer env req false (order.FileSize % 2 ^ 64) st
  | .ok fmeta => transfer env req true (fmeta.FileSize % 2 ^ 64) st

/-- The branch `operation == "download"` (lines 266 to 359). -/
def downloadFile (env : Env σ) (req : Request) (st : State σ) : Response × State σ :=
  match cacheLookup env req.queryName st with
  | (some fpath, st) => (.File fpath (st.fs fpath), st)
  | (none, st) => resolve env req st

/-- The guarded work of `getHandle` (lines 87 to 361). -/
def guarded (env : Env σ) (req : Request) (st : State σ) : Response × State σ :=
  match env.AccessControl st.ext req.account with
  | some err => (.JSON StatusForbidden (.str err), st)
  | none =>
    if req.queryName = "version" then (.JSON StatusOK (.str configs.Version), st)
    else if req.queryName = "file" then
      if req.fid = "" ∨ req.fid.utf8ByteSize ≠ FileHashLen then
        (.JSON StatusBadRequest (.str "invalid fid"), st)
      else if env.FindFile st.fs env.FileDir req.fid = "" then
        (.JSON StatusNotFound (.str env.ERR_NotFound), st)
      else (.JSON StatusOK .null, st)
    else if req.queryName.utf8ByteSize ≠ FileHashLen then bucketQuery env req st
    else if req.operation = "view" then viewFile env req st
    else if req.operation = "download" then downloadFile env req st
    else (.JSON StatusBadRequest (.str env.ERR_HeadOperation), st)

/-- How a call of `getHandle` ends for the goroutine that runs it: parked in the
receive, returned, parked in the deferred send, or gone with the process. -/
inductive Run (σ : Type) where
  | parked
  | finished (resp : Response) (st : State σ) (ch : Chan)
  | stuck (resp : Response) (st : State σ) (ch : Chan)
  | exited (st : State σ)

namespace Run

/-- The response the client got, if any. -/
def response : Run σ → Option Response
  | .parked => none
  | .finished resp _ _ => some resp
  | .stuck resp _ _ => some resp
  | .exited _ => none

/-- The client was answered Not Found. -/
def isNotFound (r : Run σ) : Bool :=
  match r.response with
  | some resp => resp.isNotFound
  | none => false

/-- The state the run left behind; `st` when the request never ran. -/
def after (st : State σ) : Run σ → State σ
  | .parked => st
  | .finished _ st1 _ => st1
  | .stuck _ st1 _ => st1
  | .exited st1 => st1

end Run

/-- The end of `getHandle` after the guarded work: the deferred send of line 85 on the
pool `c1` the receive left. It also runs when the work panicked; it does not run after
`os.Exit`. -/
def release (c1 : Chan) : Response × State σ → Run σ
  | (.exit, st) => .exited st
  | (resp, st) =>
    match c1.send with
    | some c2 => .finished resp st c2
    | none => .stuck resp st c1

/-- The method `Node.getHandle` (lines 80 to 362) run by one goroutine against the pool
`ch`: the receive of line 81, the guarded work, the deferred send of line 85. -/
def getHandle (env : Env σ) (ch : Chan) (req : Request) (st : State σ) : Run σ :=
  match ch.recv with
  | .blocks => .parked
  | .closedEmpty =>
    .finished (.JSON StatusTooManyRequests (.str "service is busy, please try again later."))
      st ch
  | .value c1 => release c1 (guarded env req st)

end handle

/-! ## Predicates used in the statements -/

/-- The invariant of the pool: the channel is the open, 30-slot channel of `init`, the
tokens in it and the running requests add up to 30, and nobody was answered busy. -/
def Gate.Inv (g : Gate) : Prop :=
  g.ch.cap = max_concurrent_get ∧ g.ch.closed = false ∧
    g.ch.tokens + g.running = max_concurrent_get ∧ g.busy = 0

/-- The error that ended the fetch phase in state `st1` is the answer of the call made
last: a miner lookup on the ledger, or the reconstruction of a segment. -/
def AbortCause {σ : Type} (env : Env σ) (err : String) (st1 : State σ) : Prop :=
  (∃ miner, st1.trace.getLast? = some (.QueryMinerItems miner) ∧
    env.QueryMinerItems st1.ext miner = .error err) ∨
  (∃ fs outpath shards, st1.trace.getLast? = some (.RSRestore outpath shards) ∧
    env.RSRestore fs outpath shards = (some err, st1.fs))

/-- The state in which the fetch phase of `fetchFiles` starts: the output file has been
created empty and the metadata has been queried. -/
def fetchStart {σ : Type} (roothash dir : String) (st : State σ) : State σ :=
  ({ st with fs := st.fs.write (Join [dir, roothash]) [] } : State σ).log (.QueryFile roothash)

/-- Every way of asking the peer gateway `v` for the file fails: its address does not
resolve, it is this node, the connection fails, or the transfer fails. -/
def GatewayFails {σ : Type} (env : Env σ) (queryName fpath : String) (size : Int)
    (v : String) : Prop :=
  ∀ w : σ, ∀ addr, env.GetPeer w v = .ok addr →
    env.ID = v ∨ (env.Connect w addr).1 ≠ none ∨
      ∀ (w2 : σ) (fs2 : FS), (env.ReadDataAction w2 fs2 addr.ID queryName fpath size).1 ≠ none

/-- A fragment transfer writes no file but the one it was asked to write. -/
def TransfersKeepToPath {σ : Type} (env : Env σ) : Prop :=
  ∀ w fs peer roothash fragment fpath size q, q ≠ fpath →
    (env.ReadFileAction w fs peer roothash fragment fpath size).2.2 q = fs q

/-- The codec writes no file but its output, and when it reports success the output
holds a segment of the canonical size. -/
def RestoresCanonical {σ : Type} (env : Env σ) : Prop :=
  ∀ fs outpath shards,
    (∀ q, q ≠ outpath → (env.RSRestore fs outpath shards).2 q = fs q) ∧
    ((env.RSRestore fs outpath shards).1 = none →
      ∃ s, (env.RSRestore fs outpath shards).2 outpath = some s ∧
        s.length = env.SegmentSize)

/-- Segment files are kept apart: no two segments share a path, and no fragment is
stored at the path of a segment. -/
def SegmentsApart (dir : String) (segments : List chain.SegmentInfo) : Prop :=
  segments.Pairwise (fun a b => Join [dir, a.Hash] ≠ Join [dir, b.Hash]) ∧
  ∀ a ∈ segments, ∀ b ∈ segments, ∀ f ∈ b.FragmentList,
    Join [dir, f.Hash] ≠ Join [dir, a.Hash]

/-- Concatenation of byte strings. -/
def concatBytes : List Bytes → Bytes
  | [] => []
  | b :: rest => b ++ concatBytes rest

/-! ## A small deployment, used to run the definitions on concrete inputs

Two data shards and one parity shard, fragments of 2 bytes, segments of 4 bytes. One
file identifier is known to the ledger in the way the scenario says. -/

namespace Demo

def fid : String := "aaaaaaaaaaaaaaaaaaaaaaaaaaaaaaaaaaaaaaaaaaaaaaaaaaaaaaaaaaaaaaaa"

def segmentHash : String := "bbbbbbbbbbbbbbbbbbbbbbbbbbbbbbbbbbbbbbbbbbbbbbbbbbbbbbbbbbbbbbbb"

def fragmentHash1 : String := "cccccccccccccccccccccccccccccccccccccccccccccccccccccccccccccccc"

def fragmentHash2 : String := "dddddddddddddddddddddddddddddddddddddddddddddddddddddddddddddddd"

/-- Committed metadata of `fid`: 4 bytes, one segment of three fragments, the last of
them the all-zero fragment. -/
def fmeta : chain.FileMetadata :=
  { SegmentList :=
      [{ Hash := segmentHash
         FragmentList :=
           [{ Hash := fragmentHash1, Avail := true, Miner := "miner1" },
            { Hash := fragmentHash2, Avail := true, Miner := "miner2" },
            { Hash := sentinelHash, Avail := true, Miner := "miner3" }] }]
    Owner := [{ User := "alice", FileName := "a.txt", BucketName := "bucket" }]
    FileSize := 4
    Completion := 100
    State := 1 }

/-- What the world looks like for `fid`. -/
structure Scenario where
  committed : Bool
  pending : Bool
  tracked : Bool
  gateways : List String
  gatewayUp : Bool
  minerListed : Bool
  minerUp : Bool
deriving DecidableEq, Repr

/-- The cache store: the records of identifier and cached path. -/
abbrev Store := List (String × String)

/-- The path under which the cache keeps `fid`. -/
def cachePath : String := Join ["filecache", fid]

/-- The collaborators in a scenario; the external state is the cache store.
Reconstruction needs two of the three fragment files; peers that are up deliver what
they are asked for; a file handed to the cache is moved to its cache path and
recorded. -/
def env (sc : Scenario) : Env Store :=
  { ERR_Empty := "empty"
    ERR_NotFound := "Not found"
    ERR_RpcFailed := "RPC failed"
    ERR_MissingAccount := "Missing account"
    ERR_InvalidAccount := "Invalid account"
    ERR_HeadOperation := "Invalid operation"
    Active := 1
    Calculate := 0
    Missing := 2
    Recovery := 3
    DataShards := 2
    ParShards := 1
    FragmentSize := 2
    SegmentSize := 4
    FileDir := "file"
    ID := "self"
    ParsingPublickey := fun a => .ok a
    CheckBucketName := fun n => decide (3 ≤ n.length ∧ n.length ≤ 63)
    EncodePublicKeyAsCessAccount := fun u => (u, none)
    base58Encode := fun s => s
    FindFile := fun fs dir f => if (fs (Join [dir, f])).isSome then Join [dir, f] else ""
    createErr := fun _ => none
    AccessControl := fun _ _ => none
    HasTrackFile := fun _ f => decide (f = fid) && sc.tracked
    GetCacheRecord := fun w _ f =>
      match w.lookup f with
      | some p => .ok p
      | none => .error "leveldb: not found"
    MoveFileToCache := fun w fs f p =>
      match fs p with
      | some c =>
        (none, (f, Join ["filecache", f]) :: w, (fs.remove p).write (Join ["filecache", f]) c)
      | none => (some "no such file", w, fs)
    QueryFile := fun _ f => if f = fid ∧ sc.committed = true then .ok fmeta else .error "empty"
    QueryDealMap := fun _ f =>
      if f = fid ∧ sc.pending = true then .ok { FileSize := 4 } else .error "empty"
    QueryBucket := fun _ _ _ => .error "empty"
    QueryAllBucketName := fun _ _ => .error "empty"
    QueryAllOssPeerId := fun _ => sc.gateways
    QueryMinerItems := fun _ m =>
      if sc.minerListed then .ok { PeerId := m } else .error "rpc: connection closed"
    GetPeer := fun _ v =>
      if v ∈ sc.gateways then
        if sc.gatewayUp then .ok { ID := v } else .error "peer not found"
      else if sc.minerUp then .ok { ID := v }
      else .error "peer not found"
    Connect := fun w _ => (none, w)
    ReadDataAction := fun w fs _ _ fpath _ => (none, w, fs.write fpath [1, 2, 3, 4])
    ReadFileAction := fun w fs _ _ _ fpath _ => (none, w, fs.write fpath [7, 7])
    RSRestore := fun fs outpath shardspath =>
      if (fs outpath).isSome then (none, fs)
      else if 2 ≤ (shardspath.filter (fun p => (fs p).isSome)).length then
        (none, fs.write outpath [1, 2, 3, 4])
      else (some "too few shards given", fs) }

/-- The empty disk. -/
def noFiles : FS := fun _ => none

/-- The state before the first request. -/
def st0 : State Store :=
  { fs := noFiles, ext := [], trace := [] }

def download : Request :=
  { account := "alice", cipher := "", queryName := fid, fid := "", operation := "download" }

def view : Request :=
  { account := "alice", cipher := "", queryName := fid, fid := "", operation := "view" }

/-- The file is committed, no gateway holds it, and the miners cannot be reached. -/
def minersDown : Scenario :=
  { committed := true, pending := false, tracked := false, gateways := [],
    gatewayUp := false, minerListed := true, minerUp := false }

/-- The file is committed and the miners can be reached. -/
def healthy : Scenario :=
  { committed := true, pending := false, tracked := false, gateways := [],
    gatewayUp := false, minerListed := true, minerUp := true }

/-- A disk on which the path of the all-zero fragment already holds one byte. -/
def staleSentinel : State Store :=
  { fs := noFiles.write (Join ["file", sentinelHash]) [1], ext := [], trace := [] }

/-- The file is committed but the ledger does not answer the miner lookup. -/
def minerLookupFails : Scenario :=
  { committed := true, pending := false, tracked := false, gateways := [],
    gatewayUp := false, minerListed := false, minerUp := true }

/-- The cache store has a record for the file, the disk has no file at that path. -/
def missingArtifact : State Store :=
  { fs := noFiles, ext := [(fid, cachePath)], trace := [] }

/-- The cache store has a record for the file, the cached path holds a file of size 0. -/
def emptyArtifact : State Store :=
  { fs := noFiles.write cachePath [], ext := [(fid, cachePath)], trace := [] }

/-- The cache store has a record for the file, the cached path holds the file. -/
def goodArtifact : State Store :=
  { fs := noFiles.write cachePath [1, 2, 3, 4], ext := [(fid, cachePath)], trace := [] }

/-- The ledger knows nothing of the file; this gateway is ingesting it. -/
def trackedOnly : Scenario :=
  { committed := false, pending := false, tracked := true, gateways := [],
    gatewayUp := false, minerListed := true, minerUp := true }

/-- The ledger knows nothing of the file and this gateway does not track it. -/
def unknown : Scenario :=
  { committed := false, pending := false, tracked := false, gateways := [],
    gatewayUp := false, minerListed := true, minerUp := true }

/-- The file has a pending order and a peer gateway that can be reached. -/
def pendingWithGateway : Scenario :=
  { committed := false, pending := true, tracked := false,
    gateways := ["self", "gateway1"], gatewayUp := true, minerListed := true, minerUp := true }

/-- The file has a pending order and no peer gateway is known. -/
def pendingAlone : Scenario :=
  { committed := false, pending := true, tracked := false, gateways := [],
    gatewayUp := false, minerListed := true, minerUp := true }

/-- The deployment of scenario `sc` with the ledger answering `m` as the committed
metadata of `fid`. -/
def envWith (sc : Scenario) (m : chain.FileMetadata) : Env Store :=
  { env sc with QueryFile := fun _ f => if f = fid then .ok m else .error "empty" }

def segmentHash2 : String := "eeeeeeeeeeeeeeeeeeeeeeeeeeeeeeeeeeeeeeeeeeeeeeeeeeeeeeeeeeeeeeee"

/-- Metadata that declares 1 byte and lists no segment. -/
def noSegments : chain.FileMetadata :=
  { fmeta with SegmentList := [], FileSize := 1 }

/-- Metadata that lists two segments and declares 2 bytes, less than the first segment
holds. -/
def declaredShort : chain.FileMetadata :=
  { fmeta with
    SegmentList := fmeta.SegmentList ++
      [{ Hash := segmentHash2
         FragmentList :=
           [{ Hash := fragmentHash1, Avail := true, Miner := "miner1" },
            { Hash := fragmentHash2, Avail := true, Miner := "miner2" },
            { Hash := sentinelHash, Avail := true, Miner := "miner3" }] }]
    FileSize := 2 }

/-- The file has a pending order and one peer gateway that can be reached. -/
def pendingOneGateway : Scenario :=
  { committed := false, pending := true, tracked := false, gateways := ["gateway1"],
    gatewayUp := true, minerListed := true, minerUp := true }

/-- The deployment of scenario `sc` with a codec that always writes its output. -/
def envRestoring (sc : Scenario) : Env Store :=
  { env sc with
    RSRestore := fun fs outpath shardspath =>
      if 2 ≤ (shardspath.filter (fun p => (fs p).isSome)).length then
        (none, fs.write outpath [1, 2, 3, 4])
      else (some "too few shards given", fs) }

end Demo
/-! ## The admission pool -/

theorem init_eq : init = { cap := 30, tokens := 30, closed := false } := by
  decide

theorem Gate.inv_start : Gate.Inv Gate.start := by
  simp [Gate.Inv, Gate.start, init_eq, max_concurrent_get]

theorem Gate.inv_step (g : Gate) (e : Event) (h : Gate.Inv g) : Gate.Inv (g.step e) := by
  obtain ⟨hc, ho, hs, hb⟩ := h
  cases e with
  | start =>
    by_cases ht : 0 < g.ch.tokens
    · simp only [Gate.step, Chan.recv, ht, if_true, Gate.Inv]
      refine ⟨hc, ho, ?_, hb⟩
      show g.ch.tokens - 1 + (g.running + 1) = max_concurrent_get
      omega
    · simp only [Gate.step, Chan.recv, ht, if_false, ho, Gate.Inv]
      exact ⟨hc, ho, hs, hb⟩
  | finish =>
    by_cases hr : g.running = 0
    · simp only [Gate.step, hr, if_true]
      exact ⟨hc, ho, hs, hb⟩
    · by_cases hp : 0 < g.parked
      · simp only [Gate.step, hr, hp, if_true, if_false]
        exact ⟨hc, ho, hs, hb⟩
      · have hlt : g.ch.tokens < g.ch.cap := by omega
        simp only [Gate.step, hr, hp, if_false, Chan.send, hlt, if_true, Gate.Inv]
        refine ⟨hc, ho, ?_, hb⟩
        show g.ch.tokens + 1 + (g.running - 1) = max_concurrent_get
        omega

theorem Gate.inv_run (evs : List Event) (g : Gate) (h : Gate.Inv g) : Gate.Inv (g.run evs) := by
  induction evs generalizing g with
  | nil => exact h
  | cons e rest ih => exact ih (g.step e) (Gate.inv_step g e h)

/-- C4. On every schedule of request starts and exits after `init`, the tokens in the
pool and the admitted requests in flight add up to 30, the pool never holds more
than 30 tokens, it holds 30 again once no admitted request is in flight, and a run of
`getHandle` that got its token ends with the pool as it found it (one token taken,
one returned), whatever the response. -/
theorem pool_tokens_conserved (evs : List Event) :
    (Gate.start.run evs).ch.tokens + (Gate.start.run evs).running = max_concurrent_get ∧
    (Gate.start.run evs).ch.tokens ≤ max_concurrent_get ∧
    ((Gate.start.run evs).running = 0 →
      (Gate.start.run evs).ch.tokens = max_concurrent_get) ∧
    (∀ (σ : Type) (env : Env σ) (req : Request) (st : State σ),
      match getHandle env (Gate.start.run evs).ch req st with
      | .finished _ _ c => c = (Gate.start.run evs).ch
      | .stuck _ _ _ => False
      | .parked => (Gate.start.run evs).ch.tokens = 0
      | .exited _ => True) := by
  obtain ⟨hc, ho, hs, _⟩ := Gate.inv_run evs Gate.start Gate.inv_start
  generalize Gate.start.run evs = g at hc ho hs
  refine ⟨hs, by omega, fun h => by omega, ?_⟩
  intro σ env req st
  obtain ⟨⟨cap, tokens, closed⟩, running, parked, busy⟩ := g
  simp only at hc ho hs
  subst hc ho
  by_cases ht : 0 < tokens
  · have hlt : tokens - 1 < max_concurrent_get := by omega
    have hback : tokens - 1 + 1 = tokens := by omega
    simp only [getHandle, Chan.recv, ht, if_true]
    rcases hg : guarded env req st with ⟨resp, st1⟩
    cases resp <;> simp [release, Chan.send, hlt, hback]
  · have h0 : tokens = 0 := by omega
    simp [getHandle, Chan.recv, h0]

set_option maxRecDepth 8000 in
/-- C3. With the 30 tokens of `init` held by 30 running requests, the receive of
line 81 parks the 31st request: `getHandle` gives no response, and on no schedule is
any request answered Too Many Requests. -/
theorem request31_parks :
    (Gate.start.run (List.replicate 30 Event.start)).ch.tokens = 0 ∧
    (Gate.start.run (List.replicate 30 Event.start)).running = 30 ∧
    Gate.start.run (List.replicate 31 Event.start) =
      { ch := { cap := 30, tokens := 0, closed := false }, running := 30, parked := 1,
        busy := 0 } ∧
    (∀ (σ : Type) (env : Env σ) (req : Request) (st : State σ),
      getHandle env (Gate.start.run (List.replicate 30 Event.start)).ch req st = Run.parked) ∧
    (∀ evs : List Event, (Gate.start.run evs).busy = 0) := by
  have h30 : (Gate.start.run (List.replicate 30 Event.start)).ch =
      { cap := 30, tokens := 0, closed := false } := by decide
  refine ⟨by decide, by decide, by decide, ?_, ?_⟩
  · intro σ env req st
    rw [h30]
    rfl
  · intro evs
    exact (Gate.inv_run evs Gate.start Gate.inv_start).2.2.2

/-! ## Assembly -/

theorem concatBytes_length (S : Nat) (segs : List Bytes) (h : ∀ s ∈ segs, s.length = S) :
    (concatBytes segs).length = segs.length * S := by
  induction segs with
  | nil => simp [concatBytes]
  | cons s rest ih =>
    have hs : s.length = S := h s (List.mem_cons_self _ _)
    have hr := ih (fun x hx => h x (List.mem_cons_of_mem _ hx))
    simp only [concatBytes, List.length_append, List.length_cons, hs, hr]
    ring

theorem assembled_length (S F : Nat) (segs : List Bytes) (hcanon : ∀ s ∈ segs, s.length = S)
    (hlo : (segs.length - 1) * S ≤ F) (hhi : F ≤ segs.length * S) :
    (concatBytes segs.dropLast ++
      (segs.getLast?.getD []).take (F - (segs.length - 1) * S)).length = F := by
  have hd : (concatBytes segs.dropLast).length = (segs.length - 1) * S := by
    rw [concatBytes_length S segs.dropLast
      (fun x hx => hcanon x (List.dropLast_subset segs hx))]
    simp
  rw [List.length_append, hd, List.length_take]
  rcases List.eq_nil_or_concat segs with hnil | ⟨init, last, hcat⟩
  · subst hnil
    simp at hhi ⊢
    omega
  · rw [List.concat_eq_append] at hcat
    subst hcat
    have hl : last.length = S := hcanon last (by simp)
    have hmul : (init.length + 1) * S = init.length * S + S := by ring
    have hlen : (init ++ [last]).length - 1 = init.length := by simp
    have hlen1 : (init ++ [last]).length = init.length + 1 := by simp
    have hlast : ((init ++ [last]).getLast?.getD []) = last := by simp
    rw [hlast, hl, hlen]
    rw [hlen] at hlo
    rw [hlen1] at hhi
    omega

theorem fetchFiles_existing {σ : Type} (env : Env σ) (roothash dir cipher : String)
    (st : State σ) (c : Bytes) (h : st.fs (Join [dir, roothash]) = some c) :
    fetchFiles env roothash dir cipher st = (.ok (Join [dir, roothash]), st) := by
  simp [fetchFiles, h]

/-- C1. A download that fails in reconstruction leaves the empty file `fetchFiles`
created at the output path; the next download of the same identifier finds that file,
returns its path without error, and `getHandle` serves it: 0 bytes for a file whose
declared size is 4. In general `fetchFiles` returns the output path without error for
whatever file it finds there, without any call and without looking at its size. -/
theorem empty_file_served_after_failed_attempt :
    (∀ (σ : Type) (env : Env σ) (roothash dir cipher : String) (st : State σ) (c : Bytes),
      st.fs (Join [dir, roothash]) = some c →
      fetchFiles env roothash dir cipher st = (.ok (Join [dir, roothash]), st)) ∧
    (getHandle (Demo.env Demo.minersDown) init Demo.download Demo.st0).response =
      some (.JSON 500 (.str "File download failed, please try again later.")) ∧
    ((getHandle (Demo.env Demo.minersDown) init Demo.download Demo.st0).after Demo.st0).fs
      (Join ["file", Demo.fid]) = some [] ∧
    (fetchFiles (Demo.env Demo.minersDown) Demo.fid "file" ""
      ((getHandle (Demo.env Demo.minersDown) init Demo.download Demo.st0).after Demo.st0)).1 =
      .ok (Join ["file", Demo.fid]) ∧
    (getHandle (Demo.env Demo.minersDown) init Demo.download
      ((getHandle (Demo.env Demo.minersDown) init Demo.download Demo.st0).after
        Demo.st0)).response = some (.File (Join ["file", Demo.fid]) (some [])) ∧
    ((Demo.env Demo.minersDown).QueryFile [] Demo.fid).toOption = some Demo.fmeta ∧
    Demo.fmeta.FileSize = 4 :=
  ⟨fun _ env roothash dir cipher st c h => fetchFiles_existing env roothash dir cipher st c h,
    by decide⟩

/-! ## The fragment loop -/

section fragments

variable {σ : Type}

theorem fetchFragment_sentinel (env : Env σ) (roothash dir : String) (k : Nat)
    (fragment : chain.FragmentInfo) (fragmentpaths : List String) (st : State σ)
    (hk : k < fragmentpaths.length) (hs : fragment.Hash = sentinelHash) :
    ∃ st1, fetchFragment env roothash dir k fragment fragmentpaths st =
        .next (fragmentpaths.set k (Join [dir, sentinelHash])) st1 ∧
      st1.trace = st.trace ∧ st1.ext = st.ext ∧
      (∀ q, q ≠ Join [dir, sentinelHash] → st1.fs q = st.fs q) ∧
      (∀ c, st.fs (Join [dir, sentinelHash]) = some c →
        st1.fs (Join [dir, sentinelHash]) = some c) ∧
      (st.fs (Join [dir, sentinelHash]) = none →
        env.createErr (Join [dir, sentinelHash]) = none →
        st1.fs (Join [dir, sentinelHash]) = some (List.replicate env.FragmentSize 0)) := by
  simp only [fetchFragment, hk, if_true, hs, ne_eq, not_true_eq_false, if_false]
  cases h1 : st.fs (Join [dir, sentinelHash]) with
  | some c => exact ⟨st, rfl, rfl, rfl, fun _ _ => rfl, fun _ hc => h1.trans hc,
        fun h => by simp at h⟩
  | none =>
    cases h2 : env.createErr (Join [dir, sentinelHash]) with
    | some e => exact ⟨st, rfl, rfl, rfl, fun _ _ => rfl, fun c hc => by simp at hc,
        fun _ h => by simp at h⟩
    | none =>
      refine ⟨_, rfl, rfl, rfl, ?_, ?_, ?_⟩
      · intro q hq
        simp [FS.write, hq]
      · intro c hc
        simp at hc
      · intro _ _
        simp [FS.write]

/-- C10. A slot whose hash is the sentinel is filled without any call: when no file is
at the fragment path the code creates it with `FragmentSize` zero bytes, when one is
there it is used as it is, and nothing else on disk changes. -/
theorem sentinel_fragment_local (env : Env σ) (roothash dir : String) (k : Nat)
    (fragment : chain.FragmentInfo) (fragmentpaths : List String) (st : State σ)
    (hk : k < fragmentpaths.length) (hs : fragment.Hash = sentinelHash) :
    ∃ st1, fetchFragment env roothash dir k fragment fragmentpaths st =
        .next (fragmentpaths.set k (Join [dir, sentinelHash])) st1 ∧
      st1.trace = st.trace ∧ st1.ext = st.ext ∧
      (∀ q, q ≠ Join [dir, sentinelHash] → st1.fs q = st.fs q) ∧
      (∀ c, st.fs (Join [dir, sentinelHash]) = some c →
        st1.fs (Join [dir, sentinelHash]) = some c) ∧
      (st.fs (Join [dir, sentinelHash]) = none →
        env.createErr (Join [dir, sentinelHash]) = none →
        st1.fs (Join [dir, sentinelHash]) = some (List.replicate env.FragmentSize 0)) :=
  fetchFragment_sentinel env roothash dir k fragment fragmentpaths st hk hs

theorem sentinel_fragment_local_witness :
    ∃ st1, fetchFragment (Demo.env Demo.healthy) Demo.fid "file" 2
        { Hash := sentinelHash, Avail := true, Miner := "miner3" } ["", "", ""] Demo.st0 =
        .next (["", "", ""].set 2 (Join ["file", sentinelHash])) st1 ∧
      st1.trace = Demo.st0.trace ∧ st1.ext = Demo.st0.ext ∧
      (∀ q, q ≠ Join ["file", sentinelHash] → st1.fs q = Demo.st0.fs q) ∧
      (∀ c, Demo.st0.fs (Join ["file", sentinelHash]) = some c →
        st1.fs (Join ["file", sentinelHash]) = some c) ∧
      (Demo.st0.fs (Join ["file", sentinelHash]) = none →
        (Demo.env Demo.healthy).createErr (Join ["file", sentinelHash]) = none →
        st1.fs (Join ["file", sentinelHash]) =
          some (List.replicate (Demo.env Demo.healthy).FragmentSize 0)) :=
  sentinel_fragment_local (Demo.env Demo.healthy) Demo.fid "file" 2
    { Hash := sentinelHash, Avail := true, Miner := "miner3" } ["", "", ""] Demo.st0
    (by decide) rfl

/-- C10, as stated, fails: with a one-byte file already at the path of the sentinel
fragment, the slot is processed and the path still holds that byte, not `FragmentSize`
zero bytes. -/
theorem sentinel_fragment_keeps_stale_file :
    (fetchFragment (Demo.env Demo.healthy) Demo.fid "file" 2
      { Hash := sentinelHash, Avail := true, Miner := "miner3" } ["", "", ""]
      Demo.staleSentinel).state.fs (Join ["file", sentinelHash]) = some [1] ∧
    (Demo.env Demo.healthy).FragmentSize = 2 ∧
    (some [1] : Option Bytes) ≠ some (List.replicate (Demo.env Demo.healthy).FragmentSize 0) := by
  decide

theorem fetchFragment_listed (env : Env σ) (roothash dir : String) (k : Nat)
    (fragment : chain.FragmentInfo) (fragmentpaths : List String) (st : State σ)
    (miner : chain.MinerInfo) (hk : k < fragmentpaths.length)
    (hs : fragment.Hash ≠ sentinelHash)
    (hm : env.QueryMinerItems st.ext fragment.Miner = .ok miner) :
    ∃ st1, fetchFragment env roothash dir k fragment fragmentpaths st =
      .next (fragmentpaths.set k (Join [dir, fragment.Hash])) st1 := by
  have hm1 : env.QueryMinerItems (st.log (.QueryMinerItems fragment.Miner)).ext fragment.Miner =
      .ok miner := hm
  simp only [fetchFragment, hk, if_true, hs, ne_eq, not_false_eq_true, hm1]
  split
  · exact ⟨_, rfl⟩
  · split
    · exact ⟨_, rfl⟩
    · exact ⟨_, rfl⟩

theorem fetchFragment_unlisted (env : Env σ) (roothash dir : String) (k : Nat)
    (fragment : chain.FragmentInfo) (fragmentpaths : List String) (st : State σ)
    (err : String) (hk : k < fragmentpaths.length) (hs : fragment.Hash ≠ sentinelHash)
    (hm : env.QueryMinerItems st.ext fragment.Miner = .error err) :
    fetchFragment env roothash dir k fragment fragmentpaths st =
      .abort err (st.log (.QueryMinerItems fragment.Miner)) := by
  have hm1 : env.QueryMinerItems (st.log (.QueryMinerItems fragment.Miner)).ext fragment.Miner =
      .error err := hm
  simp only [fetchFragment, hk, if_true, hs, ne_eq, not_false_eq_true, hm1]

theorem fetchFragment_abort (env : Env σ) (roothash dir : String) (k : Nat)
    (fragment : chain.FragmentInfo) (fragmentpaths : List String) (st st1 : State σ)
    (err : String)
    (h : fetchFragment env roothash dir k fragment fragmentpaths st = .abort err st1) :
    AbortCause env err st1 := by
  by_cases hk : k < fragmentpaths.length
  · by_cases hs : fragment.Hash = sentinelHash
    · obtain ⟨st2, h2, _⟩ :=
        fetchFragment_sentinel env roothash dir k fragment fragmentpaths st hk hs
      rw [h2] at h
      cases h
    · cases hm : env.QueryMinerItems st.ext fragment.Miner with
      | ok miner =>
        obtain ⟨st2, h2⟩ :=
          fetchFragment_listed env roothash dir k fragment fragmentpaths st miner hk hs hm
        rw [h2] at h
        cases h
      | error e =>
        rw [fetchFragment_unlisted env roothash dir k fragment fragmentpaths st e hk hs hm] at h
        cases h
        exact Or.inl ⟨fragment.Miner, by simp [State.log], hm⟩
  · simp [fetchFragment, hk] at h

theorem fetchFragments_abort (env : Env σ) (roothash dir : String)
    (fragments : List chain.FragmentInfo) :
    ∀ (k : Nat) (fragmentpaths : List String) (st st1 : State σ) (err : String),
      fetchFragments env roothash dir k fragments fragmentpaths st = .abort err st1 →
      AbortCause env err st1 := by
  induction fragments with
  | nil =>
    intro k fragmentpaths st st1 err h
    simp [fetchFragments] at h
  | cons fragment rest ih =>
    intro k fragmentpaths st st1 err h
    simp only [fetchFragments] at h
    cases hf : fetchFragment env roothash dir k fragment fragmentpaths st with
    | next paths2 st2 =>
      rw [hf] at h
      exact ih (k + 1) paths2 st2 st1 err h
    | abort e st2 =>
      rw [hf] at h
      cases h
      exact fetchFragment_abort env roothash dir k fragment fragmentpaths st st1 err hf
    | panic st2 =>
      rw [hf] at h
      cases h

theorem fetchSegments_abort (env : Env σ) (roothash dir : String)
    (segments : List chain.SegmentInfo) :
    ∀ (fragmentpaths segmentspath : List String) (st st1 : State σ) (err : String),
      fetchSegments env roothash dir segments fragmentpaths segmentspath st = .abort err st1 →
      AbortCause env err st1 := by
  induction segments with
  | nil =>
    intro fragmentpaths segmentspath st st1 err h
    simp [fetchSegments] at h
  | cons segment rest ih =>
    intro fragmentpaths segmentspath st st1 err h
    simp only [fetchSegments] at h
    cases hf : fetchFragments env roothash dir 0 segment.FragmentList fragmentpaths st with
    | abort e st2 =>
      rw [hf] at h
      cases h
      exact fetchFragments_abort env roothash dir segment.FragmentList 0 fragmentpaths st st1
        err hf
    | panic st2 =>
      rw [hf] at h
      cases h
    | next paths2 st2 =>
      rw [hf] at h
      simp only at h
      rcases hr : env.RSRestore (st2.log (.RSRestore (Join [dir, segment.Hash]) paths2)).fs
          (Join [dir, segment.Hash]) paths2 with ⟨e, fs2⟩
      rw [hr] at h
      cases e with
      | some e =>
        simp only at h
        cases h
        exact Or.inr ⟨_, _, _, by simp [State.log], hr⟩
      | none =>
        simp only at h
        exact ih _ _ _ st1 err h

theorem fetchFragment_next (env : Env σ) (roothash dir : String) (k : Nat)
    (fragment : chain.FragmentInfo) (fragmentpaths p1 : List String) (st st1 : State σ)
    (h : fetchFragment env roothash dir k fragment fragmentpaths st = .next p1 st1) :
    p1 = fragmentpaths.set k (Join [dir, fragment.Hash]) ∧ k < fragmentpaths.length := by
  by_cases hk : k < fragmentpaths.length
  · refine ⟨?_, hk⟩
    by_cases hs : fragment.Hash = sentinelHash
    · obtain ⟨st2, h2, _⟩ :=
        fetchFragment_sentinel env roothash dir k fragment fragmentpaths st hk hs
      rw [h2] at h
      cases h
      rw [hs]
    · cases hm : env.QueryMinerItems st.ext fragment.Miner with
      | ok miner =>
        obtain ⟨st2, h2⟩ :=
          fetchFragment_listed env roothash dir k fragment fragmentpaths st miner hk hs hm
        rw [h2] at h
        cases h
        rfl
      | error e =>
        rw [fetchFragment_unlisted env roothash dir k fragment fragmentpaths st e hk hs hm] at h
        cases h
  · simp [fetchFragment, hk] at h

theorem fetchFragment_not_panic (env : Env σ) (roothash dir : String) (k : Nat)
    (fragment : chain.FragmentInfo) (fragmentpaths : List String) (st st1 : State σ)
    (hk : k < fragmentpaths.length) :
    fetchFragment env roothash dir k fragment fragmentpaths st ≠ .panic st1 := by
  intro h
  by_cases hs : fragment.Hash = sentinelHash
  · obtain ⟨st2, h2, _⟩ :=
      fetchFragment_sentinel env roothash dir k fragment fragmentpaths st hk hs
    rw [h2] at h
    cases h
  · cases hm : env.QueryMinerItems st.ext fragment.Miner with
    | ok miner =>
      obtain ⟨st2, h2⟩ :=
        fetchFragment_listed env roothash dir k fragment fragmentpaths st miner hk hs hm
      rw [h2] at h
      cases h
    | error e =>
      rw [fetchFragment_unlisted env roothash dir k fragment fragmentpaths st e hk hs hm] at h
      cases h

theorem fetchFragments_cons_next (env : Env σ) (roothash dir : String) (k : Nat)
    (fragment : chain.FragmentInfo) (rest : List chain.FragmentInfo)
    (fragmentpaths p1 : List String) (st st1 : State σ)
    (h : fetchFragment env roothash dir k fragment fragmentpaths st = .next p1 st1) :
    fetchFragments env roothash dir k (fragment :: rest) fragmentpaths st =
      fetchFragments env roothash dir (k + 1) rest p1 st1 := by
  simp only [fetchFragments, h]

theorem fetchFragments_cons_abort (env : Env σ) (roothash dir : String) (k : Nat)
    (fragment : chain.FragmentInfo) (rest : List chain.FragmentInfo)
    (fragmentpaths : List String) (st st1 : State σ) (err : String)
    (h : fetchFragment env roothash dir k fragment fragmentpaths st = .abort err st1) :
    fetchFragments env roothash dir k (fragment :: rest) fragmentpaths st = .abort err st1 := by
  simp only [fetchFragments, h]

theorem fetchFragments_total (env : Env σ) (roothash dir : String)
    (fragments : List chain.FragmentInfo) :
    ∀ (k : Nat) (fragmentpaths : List String) (st : State σ),
      k + fragments.length ≤ fragmentpaths.length →
      (∃ p1 st1, fetchFragments env roothash dir k fragments fragmentpaths st = .next p1 st1 ∧
        p1.length = fragmentpaths.length) ∨
      (∃ err st1, fetchFragments env roothash dir k fragments fragmentpaths st =
        .abort err st1) := by
  induction fragments with
  | nil =>
    intro k fragmentpaths st _
    exact Or.inl ⟨fragmentpaths, st, rfl, rfl⟩
  | cons fragment rest ih =>
    intro k fragmentpaths st hlen
    simp only [List.length_cons] at hlen
    have hk : k < fragmentpaths.length := by omega
    cases hf : fetchFragment env roothash dir k fragment fragmentpaths st with
    | next p1 st1 =>
      have hp := (fetchFragment_next env roothash dir k fragment fragmentpaths p1 st st1 hf).1
      have hl : p1.length = fragmentpaths.length := by rw [hp]; simp
      rw [fetchFragments_cons_next env roothash dir k fragment rest fragmentpaths p1 st st1 hf]
      rcases ih (k + 1) p1 st1 (by omega) with ⟨p2, st2, h2, hl2⟩ | ⟨e, st2, h2⟩
      · exact Or.inl ⟨p2, st2, h2, by omega⟩
      · exact Or.inr ⟨e, st2, h2⟩
    | abort e st1 =>
      exact Or.inr ⟨e, st1,
        fetchFragments_cons_abort env roothash dir k fragment rest fragmentpaths st st1 e hf⟩
    | panic st1 =>
      exact absurd hf
        (fetchFragment_not_panic env roothash dir k fragment fragmentpaths st st1 hk)

theorem fetchFragments_doomed (env : Env σ) (roothash dir : String) (f : chain.FragmentInfo)
    (hs : f.Hash ≠ sentinelHash) (hbad : ∀ w, ∃ e, env.QueryMinerItems w f.Miner = .error e)
    (fragments : List chain.FragmentInfo) :
    ∀ (k : Nat) (fragmentpaths : List String) (st : State σ), f ∈ fragments →
      k + fragments.length ≤ fragmentpaths.length →
      ∃ err st1, fetchFragments env roothash dir k fragments fragmentpaths st =
        .abort err st1 := by
  induction fragments with
  | nil =>
    intro k fragmentpaths st hmem
    cases hmem
  | cons fragment rest ih =>
    intro k fragmentpaths st hmem hlen
    simp only [List.length_cons] at hlen
    have hk : k < fragmentpaths.length := by omega
    cases hf : fetchFragment env roothash dir k fragment fragmentpaths st with
    | abort e st1 =>
      exact ⟨e, st1,
        fetchFragments_cons_abort env roothash dir k fragment rest fragmentpaths st st1 e hf⟩
    | panic st1 =>
      exact absurd hf
        (fetchFragment_not_panic env roothash dir k fragment fragmentpaths st st1 hk)
    | next p1 st1 =>
      have hp := (fetchFragment_next env roothash dir k fragment fragmentpaths p1 st st1 hf).1
      have hl : p1.length = fragmentpaths.length := by rw [hp]; simp
      rw [fetchFragments_cons_next env roothash dir k fragment rest fragmentpaths p1 st st1 hf]
      rcases List.mem_cons.1 hmem with heq | hin
      · subst heq
        obtain ⟨e, he⟩ := hbad st.ext
        rw [fetchFragment_unlisted env roothash dir k f fragmentpaths st e hk hs he] at hf
        cases hf
      · exact ih (k + 1) p1 st1 hin (by omega)

theorem fetchSegments_cons_abort (env : Env σ) (roothash dir : String)
    (segment : chain.SegmentInfo) (rest : List chain.SegmentInfo)
    (fragmentpaths segmentspath : List String) (st st1 : State σ) (err : String)
    (h : fetchFragments env roothash dir 0 segment.FragmentList fragmentpaths st =
      .abort err st1) :
    fetchSegments env roothash dir (segment :: rest) fragmentpaths segmentspath st =
      .abort err st1 := by
  simp only [fetchSegments, h]

theorem fetchSegments_next (env : Env σ) (roothash dir : String)
    (segments : List chain.SegmentInfo) :
    ∀ (fragmentpaths segmentspath sp : List String) (st st1 : State σ),
      fetchSegments env roothash dir segments fragmentpaths segmentspath st = .next sp st1 →
      sp = segmentspath ++ segments.map (fun s => Join [dir, s.Hash]) := by
  induction segments with
  | nil =>
    intro fragmentpaths segmentspath sp st st1 h
    simp only [fetchSegments] at h
    cases h
    simp
  | cons segment rest ih =>
    intro fragmentpaths segmentspath sp st st1 h
    simp only [fetchSegments] at h
    cases hf : fetchFragments env roothash dir 0 segment.FragmentList fragmentpaths st with
    | abort e st2 =>
      rw [hf] at h
      cases h
    | panic st2 =>
      rw [hf] at h
      cases h
    | next paths2 st2 =>
      rw [hf] at h
      simp only at h
      rcases hr : env.RSRestore (st2.log (.RSRestore (Join [dir, segment.Hash]) paths2)).fs
          (Join [dir, segment.Hash]) paths2 with ⟨e, fs2⟩
      rw [hr] at h
      cases e with
      | some e =>
        simp only at h
        cases h
      | none =>
        simp only at h
        rw [ih _ _ _ _ _ h]
        simp

theorem fetchSegments_total (env : Env σ) (roothash dir : String)
    (segments : List chain.SegmentInfo) :
    ∀ (fragmentpaths segmentspath : List String) (st : State σ),
      (∀ s ∈ segments, s.FragmentList.length ≤ fragmentpaths.length) →
      (∃ sp st1, fetchSegments env roothash dir segments fragmentpaths segmentspath st =
        .next sp st1) ∨
      (∃ err st1, fetchSegments env roothash dir segments fragmentpaths segmentspath st =
        .abort err st1) := by
  induction segments with
  | nil =>
    intro fragmentpaths segmentspath st _
    exact Or.inl ⟨segmentspath, st, rfl⟩
  | cons segment rest ih =>
    intro fragmentpaths segmentspath st hlen
    have hseg : 0 + segment.FragmentList.length ≤ fragmentpaths.length := by
      have := hlen segment (List.mem_cons_self _ _)
      omega
    rcases fetchFragments_total env roothash dir segment.FragmentList 0 fragmentpaths st hseg
      with ⟨p1, st1, h1, hl⟩ | ⟨e, st1, h1⟩
    · simp only [fetchSegments, h1]
      rcases hr : env.RSRestore (st1.log (.RSRestore (Join [dir, segment.Hash]) p1)).fs
          (Join [dir, segment.Hash]) p1 with ⟨e, fs2⟩
      cases e with
      | some e => exact Or.inr ⟨e, _, rfl⟩
      | none =>
        exact ih p1 _ _ (fun s hs => by
          rw [hl]
          exact hlen s (List.mem_cons_of_mem _ hs))
    · exact Or.inr ⟨e, st1,
        fetchSegments_cons_abort env roothash dir segment rest fragmentpaths segmentspath st st1
          e h1⟩

theorem fetchSegments_doomed (env : Env σ) (roothash dir : String) (f : chain.FragmentInfo)
    (hs : f.Hash ≠ sentinelHash) (hbad : ∀ w, ∃ e, env.QueryMinerItems w f.Miner = .error e)
    (segments : List chain.SegmentInfo) :
    ∀ (fragmentpaths segmentspath : List String) (st : State σ) (seg : chain.SegmentInfo),
      seg ∈ segments → f ∈ seg.FragmentList →
      (∀ s ∈ segments, s.FragmentList.length ≤ fragmentpaths.length) →
      ∃ err st1, fetchSegments env roothash dir segments fragmentpaths segmentspath st =
        .abort err st1 := by
  induction segments with
  | nil =>
    intro fragmentpaths segmentspath st seg hmem
    cases hmem
  | cons segment rest ih =>
    intro fragmentpaths segmentspath st seg hmem hf hlen
    have hseg : 0 + segment.FragmentList.length ≤ fragmentpaths.length := by
      have := hlen segment (List.mem_cons_self _ _)
      omega
    rcases List.mem_cons.1 hmem with heq | hin
    · subst heq
      obtain ⟨e, st1, h1⟩ :=
        fetchFragments_doomed env roothash dir f hs hbad seg.FragmentList 0 fragmentpaths st hf
          hseg
      exact ⟨e, st1,
        fetchSegments_cons_abort env roothash dir seg rest fragmentpaths segmentspath st st1 e
          h1⟩
    · rcases fetchFragments_total env roothash dir segment.FragmentList 0 fragmentpaths st hseg
        with ⟨p1, st1, h1, hl⟩ | ⟨e, st1, h1⟩
      · simp only [fetchSegments, h1]
        rcases hr : env.RSRestore (st1.log (.RSRestore (Join [dir, segment.Hash]) p1)).fs
            (Join [dir, segment.Hash]) p1 with ⟨e, fs2⟩
        cases e with
        | some e => exact ⟨e, _, rfl⟩
        | none =>
          exact ih p1 _ _ seg hin hf (fun s hs => by
            rw [hl]
            exact hlen s (List.mem_cons_of_mem _ hs))
      · exact ⟨e, st1,
          fetchSegments_cons_abort env roothash dir segment rest fragmentpaths segmentspath st
            st1 e h1⟩

theorem fetchSegments_not_abort (env : Env σ) (roothash dir : String)
    (hlisted : ∀ w m, ∃ miner, env.QueryMinerItems w m = .ok miner)
    (hrestore : ∀ fs outpath shards, (env.RSRestore fs outpath shards).1 = none)
    (segments : List chain.SegmentInfo) (fragmentpaths segmentspath : List String)
    (st st1 : State σ) (err : String) :
    fetchSegments env roothash dir segments fragmentpaths segmentspath st ≠ .abort err st1 := by
  intro h
  rcases fetchSegments_abort env roothash dir segments fragmentpaths segmentspath st st1 err h
    with ⟨miner, _, hm⟩ | ⟨fs, outpath, shards, _, hr⟩
  · obtain ⟨mi, hmi⟩ := hlisted st1.ext miner
    rw [hmi] at hm
    cases hm
  · have := hrestore fs outpath shards
    rw [hr] at this
    cases this

/-- C5. For a fragment that is not the sentinel, a failure to resolve the peer address,
to connect or to transfer only skips the slot and the loop goes on with the next
fragment; a failed miner lookup on the ledger ends the fragment loop, the segment loop
and `fetchFiles` with that error at once, so a file with such a fragment anywhere in it
is never returned by the fetch phase. A failed reconstruction ends the segment loop with
its error in the same way. In the fetch phase `fetchFiles` ends with an error only when
a miner lookup or the reconstruction of a segment failed: when neither ever fails, the
fetch phase completes whatever the peers do. -/
theorem fragment_failures_absorbed (env : Env σ) (roothash dir : String) :
    (∀ (k : Nat) (fragment : chain.FragmentInfo) (fragmentpaths : List String) (st : State σ)
        (miner : chain.MinerInfo),
      k < fragmentpaths.length → fragment.Hash ≠ sentinelHash →
      env.QueryMinerItems st.ext fragment.Miner = .ok miner →
      ∃ st1, fetchFragment env roothash dir k fragment fragmentpaths st =
        .next (fragmentpaths.set k (Join [dir, fragment.Hash])) st1) ∧
    (∀ (k : Nat) (fragment : chain.FragmentInfo) (fragmentpaths : List String) (st : State σ)
        (err : String),
      k < fragmentpaths.length → fragment.Hash ≠ sentinelHash →
      env.QueryMinerItems st.ext fragment.Miner = .error err →
      fetchFragment env roothash dir k fragment fragmentpaths st =
        .abort err (st.log (.QueryMinerItems fragment.Miner))) ∧
    (∀ (segments : List chain.SegmentInfo) (fragmentpaths segmentspath : List String)
        (st st1 : State σ) (err : String),
      fetchSegments env roothash dir segments fragmentpaths segmentspath st = .abort err st1 →
      (∃ miner, st1.trace.getLast? = some (.QueryMinerItems miner) ∧
        env.QueryMinerItems st1.ext miner = .error err) ∨
      (∃ fs outpath shards, st1.trace.getLast? = some (.RSRestore outpath shards) ∧
        env.RSRestore fs outpath shards = (some err, st1.fs))) ∧
    (∀ (k : Nat) (fragment : chain.FragmentInfo) (rest : List chain.FragmentInfo)
        (fragmentpaths : List String) (st : State σ) (miner : chain.MinerInfo),
      k < fragmentpaths.length → fragment.Hash ≠ sentinelHash →
      env.QueryMinerItems st.ext fragment.Miner = .ok miner →
      ∃ st1, fetchFragments env roothash dir k (fragment :: rest) fragmentpaths st =
        fetchFragments env roothash dir (k + 1) rest
          (fragmentpaths.set k (Join [dir, fragment.Hash])) st1) ∧
    (∀ (k : Nat) (fragment : chain.FragmentInfo) (rest : List chain.FragmentInfo)
        (fragmentpaths : List String) (st : State σ) (err : String),
      k < fragmentpaths.length → fragment.Hash ≠ sentinelHash →
      env.QueryMinerItems st.ext fragment.Miner = .error err →
      fetchFragments env roothash dir k (fragment :: rest) fragmentpaths st =
        .abort err (st.log (.QueryMinerItems fragment.Miner))) ∧
    (∀ (segment : chain.SegmentInfo) (rest : List chain.SegmentInfo)
        (fragmentpaths segmentspath : List String) (st st1 : State σ) (err : String),
      fetchFragments env roothash dir 0 segment.FragmentList fragmentpaths st =
        .abort err st1 →
      fetchSegments env roothash dir (segment :: rest) fragmentpaths segmentspath st =
        .abort err st1) ∧
    (∀ (cipher : String) (st st1 : State σ) (fmeta : chain.FileMetadata) (err : String),
      st.fs (Join [dir, roothash]) = none → env.createErr (Join [dir, roothash]) = none →
      env.QueryFile st.ext roothash = .ok fmeta →
      ownerCopy env roothash fmeta.Owner (fetchStart roothash dir st).fs = none →
      fetchSegments env roothash dir fmeta.SegmentList
        (List.replicate (env.DataShards + env.ParShards) "") [] (fetchStart roothash dir st) =
        .abort err st1 →
      fetchFiles env roothash dir cipher st =
        (.fail err, { st1 with fs := cleanup dir fmeta.SegmentList st1.fs })) ∧
    (∀ (cipher : String) (st : State σ) (fmeta : chain.FileMetadata)
        (seg : chain.SegmentInfo) (f : chain.FragmentInfo),
      st.fs (Join [dir, roothash]) = none → env.createErr (Join [dir, roothash]) = none →
      env.QueryFile st.ext roothash = .ok fmeta →
      ownerCopy env roothash fmeta.Owner (fetchStart roothash dir st).fs = none →
      seg ∈ fmeta.SegmentList → f ∈ seg.FragmentList → f.Hash ≠ sentinelHash →
      (∀ w, ∃ e, env.QueryMinerItems w f.Miner = .error e) →
      (∀ s ∈ fmeta.SegmentList, s.FragmentList.length ≤ env.DataShards + env.ParShards) →
      ∃ err, (fetchFiles env roothash dir cipher st).1 = .fail err) ∧
    (∀ (segments : List chain.SegmentInfo) (fragmentpaths segmentspath : List String)
        (st : State σ),
      (∀ w m, ∃ miner, env.QueryMinerItems w m = .ok miner) →
      (∀ fs outpath shards, (env.RSRestore fs outpath shards).1 = none) →
      (∀ s ∈ segments, s.FragmentList.length ≤ fragmentpaths.length) →
      ∃ st1, fetchSegments env roothash dir segments fragmentpaths segmentspath st =
        .next (segmentspath ++ segments.map (fun s => Join [dir, s.Hash])) st1) ∧
    (∀ (cipher : String) (st : State σ) (fmeta : chain.FileMetadata)
        (seg : chain.SegmentInfo) (rest : List chain.SegmentInfo) (f : chain.FragmentInfo)
        (frest : List chain.FragmentInfo) (err : String),
      st.fs (Join [dir, roothash]) = none → env.createErr (Join [dir, roothash]) = none →
      env.QueryFile st.ext roothash = .ok fmeta →
      ownerCopy env roothash fmeta.Owner (fetchStart roothash dir st).fs = none →
      fmeta.SegmentList = seg :: rest → seg.FragmentList = f :: frest →
      0 < env.DataShards + env.ParShards → f.Hash ≠ sentinelHash →
      env.QueryMinerItems st.ext f.Miner = .error err →
      (fetchFiles env roothash dir cipher st).1 = .fail err ∧
      (fetchFiles env roothash dir cipher st).2.trace =
        st.trace ++ [.QueryFile roothash, .QueryMinerItems f.Miner] ∧
      (fetchFiles env roothash dir cipher st).2.ext = st.ext) ∧
    (∀ (segment : chain.SegmentInfo) (rest : List chain.SegmentInfo)
        (fragmentpaths segmentspath p1 : List String) (st st1 : State σ) (fs2 : FS),
      fetchFragments env roothash dir 0 segment.FragmentList fragmentpaths st =
        .next p1 st1 →
      (∀ err, env.RSRestore st1.fs (Join [dir, segment.Hash]) p1 = (some err, fs2) →
        fetchSegments env roothash dir (segment :: rest) fragmentpaths segmentspath st =
          .abort err
            { fs := fs2, ext := st1.ext,
              trace := st1.trace ++ [.RSRestore (Join [dir, segment.Hash]) p1] }) ∧
      (env.RSRestore st1.fs (Join [dir, segment.Hash]) p1 = (none, fs2) →
        fetchSegments env roothash dir (segment :: rest) fragmentpaths segmentspath st =
          fetchSegments env roothash dir rest p1
            (segmentspath ++ [Join [dir, segment.Hash]])
            { fs := fs2, ext := st1.ext,
              trace := st1.trace ++ [.RSRestore (Join [dir, segment.Hash]) p1] })) := by
  have hlisted : ∀ (k : Nat) (fragment : chain.FragmentInfo) (fragmentpaths : List String)
      (st : State σ) (miner : chain.MinerInfo),
      k < fragmentpaths.length → fragment.Hash ≠ sentinelHash →
      env.QueryMinerItems st.ext fragment.Miner = .ok miner →
      ∃ st1, fetchFragment env roothash dir k fragment fragmentpaths st =
        .next (fragmentpaths.set k (Join [dir, fragment.Hash])) st1 := by
    intro k fragment fragmentpaths st miner hk hs hm
    have hm1 : env.QueryMinerItems (st.log (.QueryMinerItems fragment.Miner)).ext
        fragment.Miner = .ok miner := hm
    simp only [fetchFragment, hk, if_true, hs, ne_eq, not_false_eq_true, hm1]
    split
    · exact ⟨_, rfl⟩
    · split
      · exact ⟨_, rfl⟩
      · exact ⟨_, rfl⟩
  have hunlisted : ∀ (k : Nat) (fragment : chain.FragmentInfo) (fragmentpaths : List String)
      (st : State σ) (err : String),
      k < fragmentpaths.length → fragment.Hash ≠ sentinelHash →
      env.QueryMinerItems st.ext fragment.Miner = .error err →
      fetchFragment env roothash dir k fragment fragmentpaths st =
        .abort err (st.log (.QueryMinerItems fragment.Miner)) := by
    intro k fragment fragmentpaths st err hk hs hm
    have hm1 : env.QueryMinerItems (st.log (.QueryMinerItems fragment.Miner)).ext
        fragment.Miner = .error err := hm
    simp only [fetchFragment, hk, if_true, hs, ne_eq, not_false_eq_true, hm1]
  have hnext : ∀ (k : Nat) (fragment : chain.FragmentInfo) (rest : List chain.FragmentInfo)
      (fragmentpaths p1 : List String) (st st1 : State σ),
      fetchFragment env roothash dir k fragment fragmentpaths st = .next p1 st1 →
      fetchFragments env roothash dir k (fragment :: rest) fragmentpaths st =
        fetchFragments env roothash dir (k + 1) rest p1 st1 := by
    intro k fragment rest fragmentpaths p1 st st1 h
    simp only [fetchFragments, h]
  have habort : ∀ (k : Nat) (fragment : chain.FragmentInfo) (rest : List chain.FragmentInfo)
      (fragmentpaths : List String) (st st1 : State σ) (err : String),
      fetchFragment env roothash dir k fragment fragmentpaths st = .abort err st1 →
      fetchFragments env roothash dir k (fragment :: rest) fragmentpaths st =
        .abort err st1 := by
    intro k fragment rest fragmentpaths st st1 err h
    simp only [fetchFragments, h]
  have hsegment : ∀ (segment : chain.SegmentInfo) (rest : List chain.SegmentInfo)
      (fragmentpaths segmentspath : List String) (st st1 : State σ) (err : String),
      fetchFragments env roothash dir 0 segment.FragmentList fragmentpaths st =
        .abort err st1 →
      fetchSegments env roothash dir (segment :: rest) fragmentpaths segmentspath st =
        .abort err st1 := by
    intro segment rest fragmentpaths segmentspath st st1 err h
    simp only [fetchSegments, h]
  have hfile : ∀ (cipher : String) (st st1 : State σ) (fmeta : chain.FileMetadata)
      (err : String),
      st.fs (Join [dir, roothash]) = none → env.createErr (Join [dir, roothash]) = none →
      env.QueryFile st.ext roothash = .ok fmeta →
      ownerCopy env roothash fmeta.Owner (fetchStart roothash dir st).fs = none →
      fetchSegments env roothash dir fmeta.SegmentList
        (List.replicate (env.DataShards + env.ParShards) "") [] (fetchStart roothash dir st) =
        .abort err st1 →
      fetchFiles env roothash dir cipher st =
        (.fail err, { st1 with fs := cleanup dir fmeta.SegmentList st1.fs }) := by
    intro cipher st st1 fmeta err hnone hcreate hmeta howner h
    have hmeta1 : env.QueryFile
        (State.log { st with fs := st.fs.write (Join [dir, roothash]) [] }
          (.QueryFile roothash)).ext roothash = .ok fmeta := hmeta
    have howner1 : ownerCopy env roothash fmeta.Owner
        (State.log { st with fs := st.fs.write (Join [dir, roothash]) [] }
          (.QueryFile roothash)).fs = none := howner
    have h1 : fetchSegments env roothash dir fmeta.SegmentList
        (List.replicate (env.DataShards + env.ParShards) "") []
        (State.log { st with fs := st.fs.write (Join [dir, roothash]) [] }
          (.QueryFile roothash)) = .abort err st1 := h
    simp only [fetchFiles, hnone, hcreate, hmeta1, howner1, h1]
  refine ⟨hlisted, hunlisted,
    fun segments fragmentpaths segmentspath st st1 err h =>
      fetchSegments_abort env roothash dir segments fragmentpaths segmentspath st st1 err h,
    ?_, ?_, hsegment, hfile, ?_, ?_, ?_, ?_⟩
  · intro k fragment rest fragmentpaths st miner hk hs hm
    obtain ⟨st1, h1⟩ := hlisted k fragment fragmentpaths st miner hk hs hm
    exact ⟨st1, hnext k fragment rest fragmentpaths _ st st1 h1⟩
  · intro k fragment rest fragmentpaths st err hk hs hm
    exact habort k fragment rest fragmentpaths st _ err
      (hunlisted k fragment fragmentpaths st err hk hs hm)
  · intro cipher st fmeta seg f hnone hcreate hmeta howner hseg hf hs hbad hlen
    obtain ⟨err, st1, h⟩ :=
      fetchSegments_doomed env roothash dir f hs hbad fmeta.SegmentList
        (List.replicate (env.DataShards + env.ParShards) "") [] (fetchStart roothash dir st)
        seg hseg hf (by simpa using hlen)
    refine ⟨err, ?_⟩
    rw [hfile cipher st st1 fmeta err hnone hcreate hmeta howner h]
  · intro segments fragmentpaths segmentspath st hlisted2 hrestore hlen
    rcases fetchSegments_total env roothash dir segments fragmentpaths segmentspath st hlen
      with ⟨sp, st1, h⟩ | ⟨e, st1, h⟩
    · have hsp := fetchSegments_next env roothash dir segments fragmentpaths segmentspath sp st
        st1 h
      rw [hsp] at h
      exact ⟨st1, h⟩
    · exact absurd h
        (fetchSegments_not_abort env roothash dir hlisted2 hrestore segments fragmentpaths
          segmentspath st st1 e)
  · intro cipher st fmeta seg rest f frest err hnone hcreate hmeta howner hsegs hfrags hpos hs
      hm
    have hm1 : env.QueryMinerItems (fetchStart roothash dir st).ext f.Miner = .error err := hm
    have h1 := habort 0 f frest
      (List.replicate (env.DataShards + env.ParShards) "") (fetchStart roothash dir st) _ err
      (hunlisted 0 f _ (fetchStart roothash dir st) err (by simpa using hpos) hs hm1)
    rw [← hfrags] at h1
    have h2 := hsegment seg rest
      (List.replicate (env.DataShards + env.ParShards) "") [] (fetchStart roothash dir st) _
      err h1
    rw [← hsegs] at h2
    rw [hfile cipher st _ fmeta err hnone hcreate hmeta howner h2]
    refine ⟨rfl, ?_, rfl⟩
    simp [fetchStart, State.log]
  · intro segment rest fragmentpaths segmentspath p1 st st1 fs2 hfr
    constructor
    · intro err hr
      have hr1 : env.RSRestore (st1.log (.RSRestore (Join [dir, segment.Hash]) p1)).fs
          (Join [dir, segment.Hash]) p1 = (some err, fs2) := hr
      simp only [fetchSegments, hfr, hr1]
      simp [State.log]
    · intro hr
      have hr1 : env.RSRestore (st1.log (.RSRestore (Join [dir, segment.Hash]) p1)).fs
          (Join [dir, segment.Hash]) p1 = (none, fs2) := hr
      simp only [fetchSegments, hfr, hr1]
      simp [State.log]

theorem fragment_failures_absorbed_witness :
    (∃ st1, fetchFragment (Demo.env Demo.minersDown) Demo.fid "file" 0
        { Hash := Demo.fragmentHash1, Avail := true, Miner := "miner1" } ["", "", ""]
        Demo.st0 =
      .next (["", "", ""].set 0 (Join ["file", Demo.fragmentHash1])) st1) ∧
    ∃ err, (fetchFiles (Demo.env Demo.minerLookupFails) Demo.fid "file" "" Demo.st0).1 =
      .fail err :=
  ⟨(fragment_failures_absorbed (Demo.env Demo.minersDown) Demo.fid "file").1 0
      { Hash := Demo.fragmentHash1, Avail := true, Miner := "miner1" } ["", "", ""] Demo.st0
      { PeerId := "miner1" } (by decide) (by decide) rfl,
    (fragment_failures_absorbed (Demo.env Demo.minerLookupFails) Demo.fid "file").2.2.2.2.2.2.2.1
      "" Demo.st0 Demo.fmeta
      { Hash := Demo.segmentHash
        FragmentList :=
          [{ Hash := Demo.fragmentHash1, Avail := true, Miner := "miner1" },
           { Hash := Demo.fragmentHash2, Avail := true, Miner := "miner2" },
           { Hash := sentinelHash, Avail := true, Miner := "miner3" }] }
      { Hash := Demo.fragmentHash1, Avail := true, Miner := "miner1" }
      (by decide) rfl rfl (by decide) (by decide) (by decide) (by decide)
      (fun _ => ⟨"rpc: connection closed", rfl⟩) (by decide)⟩

/-- C5, as stated, fails: the ledger does not answer the miner lookup of the first
fragment, and `fetchFiles` ends with that error before any reconstruction was tried. -/
theorem miner_lookup_failure_is_fatal :
    (fetchFiles (Demo.env Demo.minerLookupFails) Demo.fid "file" "" Demo.st0).1 =
      .fail "rpc: connection closed" ∧
    (fetchFiles (Demo.env Demo.minerLookupFails) Demo.fid "file" "" Demo.st0).2.trace =
      [.QueryFile Demo.fid, .QueryMinerItems "miner1"] := by
  decide

end fragments

/-! ## The handler -/

section handler

variable {σ : Type}

theorem getHandle_admitted (env : Env σ) (ch c1 : Chan) (req : Request) (st : State σ)
    (htok : ch.recv = .value c1) :
    getHandle env ch req st = release c1 (guarded env req st) := by
  simp [getHandle, htok]

theorem release_response (c1 : Chan) (resp : Response) (st : State σ) (h : resp ≠ .exit) :
    (release c1 (resp, st)).response = some resp ∧
      (release c1 (resp, st)).after st = st ∧
      ∀ st0, (release c1 (resp, st)).after st0 = st := by
  cases resp with
  | exit => exact absurd rfl h
  | JSON code obj => cases hs : c1.send <;> simp [release, hs, Run.response, Run.after]
  | File p c => cases hs : c1.send <;> simp [release, hs, Run.response, Run.after]
  | panic => cases hs : c1.send <;> simp [release, hs, Run.response, Run.after]

theorem release_isNotFound (c1 : Chan) (p : Response × State σ) :
    (release c1 p).isNotFound = p.1.isNotFound := by
  obtain ⟨resp, st⟩ := p
  cases resp with
  | exit => simp [release, Run.isNotFound, Run.response, Response.isNotFound]
  | JSON code obj => cases hs : c1.send <;> simp [release, hs, Run.isNotFound, Run.response]
  | File p c => cases hs : c1.send <;> simp [release, hs, Run.isNotFound, Run.response]
  | panic => cases hs : c1.send <;> simp [release, hs, Run.isNotFound, Run.response]

theorem name_is_hash (name : String) (hlen : name.utf8ByteSize = FileHashLen) :
    name ≠ "version" ∧ name ≠ "file" := by
  constructor
  · intro h
    rw [h] at hlen
    revert hlen
    decide
  · intro h
    rw [h] at hlen
    revert hlen
    decide

theorem guarded_download (env : Env σ) (req : Request) (st : State σ)
    (hacc : env.AccessControl st.ext req.account = none)
    (hlen : req.queryName.utf8ByteSize = FileHashLen) (hop : req.operation = "download") :
    guarded env req st = downloadFile env req st := by
  obtain ⟨h1, h2⟩ := name_is_hash req.queryName hlen
  have h3 : ¬ ("download" = "view") := by decide
  simp [guarded, hacc, h1, h2, hlen, hop, h3]

theorem guarded_view (env : Env σ) (req : Request) (st : State σ)
    (hacc : env.AccessControl st.ext req.account = none)
    (hlen : req.queryName.utf8ByteSize = FileHashLen) (hop : req.operation = "view") :
    guarded env req st = viewFile env req st := by
  obtain ⟨h1, h2⟩ := name_is_hash req.queryName hlen
  simp [guarded, hacc, h1, h2, hlen, hop]

theorem cacheLookup_hit (env : Env σ) (queryName fpath : String) (content : Bytes)
    (st : State σ) (hrec : env.GetCacheRecord st.ext st.fs queryName = .ok fpath)
    (hfile : st.fs fpath = some content) (hsize : 0 < content.length) :
    cacheLookup env queryName st = (some fpath, st.log (.GetCacheRecord queryName)) := by
  have hrec1 : env.GetCacheRecord (st.log (.GetCacheRecord queryName)).ext
      (st.log (.GetCacheRecord queryName)).fs queryName = .ok fpath := hrec
  have hfile1 : (st.log (.GetCacheRecord queryName)).fs fpath = some content := hfile
  simp [cacheLookup, hrec1, hfile1, hsize]

/-- C9. A download whose identifier has a cache record with a non-empty artifact is
answered with exactly that file; the only call made is the cache lookup, so no ledger
query and no peer-network call happens, and neither the disk nor the external state
(cache store included) changes. -/
theorem cache_hit_short_circuits (env : Env σ) (ch c1 : Chan) (req : Request) (st : State σ)
    (fpath : String) (content : Bytes) (htok : ch.recv = .value c1)
    (hacc : env.AccessControl st.ext req.account = none)
    (hlen : req.queryName.utf8ByteSize = FileHashLen) (hop : req.operation = "download")
    (hrec : env.GetCacheRecord st.ext st.fs req.queryName = .ok fpath)
    (hfile : st.fs fpath = some content) (hsize : 0 < content.length) :
    (getHandle env ch req st).response = some (.File fpath (some content)) ∧
    ((getHandle env ch req st).after st).fs = st.fs ∧
    ((getHandle env ch req st).after st).ext = st.ext ∧
    ((getHandle env ch req st).after st).trace = st.trace ++ [.GetCacheRecord req.queryName] ∧
    (Call.GetCacheRecord req.queryName).isLedger = false ∧
    (Call.GetCacheRecord req.queryName).isPeer = false := by
  have hrun : getHandle env ch req st =
      release c1 (.File fpath (some content), st.log (.GetCacheRecord req.queryName)) := by
    rw [getHandle_admitted env ch c1 req st htok, guarded_download env req st hacc hlen hop]
    have hfile1 : (st.log (.GetCacheRecord req.queryName)).fs fpath = some content := hfile
    simp [downloadFile, cacheLookup_hit env req.queryName fpath content st hrec hfile hsize,
      hfile1]
  obtain ⟨h1, _, h3⟩ := release_response c1 (.File fpath (some content))
    (st.log (.GetCacheRecord req.queryName)) (by simp)
  rw [hrun, h1, h3 st]
  exact ⟨rfl, rfl, rfl, rfl, rfl, rfl⟩

theorem cache_hit_short_circuits_witness :
    (getHandle (Demo.env Demo.healthy) init Demo.download Demo.goodArtifact).response =
      some (.File Demo.cachePath (some [1, 2, 3, 4])) ∧
    ((getHandle (Demo.env Demo.healthy) init Demo.download Demo.goodArtifact).after
      Demo.goodArtifact).fs = Demo.goodArtifact.fs ∧
    ((getHandle (Demo.env Demo.healthy) init Demo.download Demo.goodArtifact).after
      Demo.goodArtifact).ext = Demo.goodArtifact.ext ∧
    ((getHandle (Demo.env Demo.healthy) init Demo.download Demo.goodArtifact).after
      Demo.goodArtifact).trace =
      Demo.goodArtifact.trace ++ [.GetCacheRecord Demo.download.queryName] ∧
    (Call.GetCacheRecord Demo.download.queryName).isLedger = false ∧
    (Call.GetCacheRecord Demo.download.queryName).isPeer = false :=
  cache_hit_short_circuits (Demo.env Demo.healthy) init
    { cap := 30, tokens := 29, closed := false } Demo.download Demo.goodArtifact Demo.cachePath
    [1, 2, 3, 4] (by decide) rfl (by decide) rfl rfl (by decide) (by decide)

theorem cacheLookup_stale (env : Env σ) (queryName fpath : String) (st : State σ)
    (hrec : env.GetCacheRecord st.ext st.fs queryName = .ok fpath)
    (hstale : st.fs fpath = none ∨ st.fs fpath = some []) :
    ∃ st1, cacheLookup env queryName st = (none, st1) ∧
      st1.trace = st.trace ++ [.GetCacheRecord queryName] ∧ st1.ext = st.ext ∧
      st1.fs fpath = none ∧ (∀ p, p ≠ fpath → st1.fs p = st.fs p) ∧
      (st.fs fpath = none → st1.fs = st.fs) := by
  have hrec1 : env.GetCacheRecord (st.log (.GetCacheRecord queryName)).ext
      (st.log (.GetCacheRecord queryName)).fs queryName = .ok fpath := hrec
  rcases hstale with hnone | hempty
  · have hfile1 : (st.log (.GetCacheRecord queryName)).fs fpath = none := hnone
    refine ⟨st.log (.GetCacheRecord queryName), ?_, rfl, rfl, hnone, fun _ _ => rfl,
      fun _ => rfl⟩
    simp [cacheLookup, hrec1, hfile1]
  · have hfile1 : (st.log (.GetCacheRecord queryName)).fs fpath = some [] := hempty
    refine ⟨{ st.log (.GetCacheRecord queryName) with
        fs := (st.log (.GetCacheRecord queryName)).fs.remove fpath }, ?_, rfl, rfl, ?_, ?_, ?_⟩
    · simp [cacheLookup, hrec1, hfile1]
    · simp [FS.remove]
    · intro p hp
      simp [FS.remove, hp, State.log]
    · intro h
      rw [h] at hempty
      cases hempty

/-- C8. A download whose cache record points at a missing or empty artifact is not
answered from the cache and goes on to the ledger resolution. An empty artifact file is
deleted; the cache store is not written, so the record stays, and with a missing
artifact nothing changes at all: the record resolves as before. -/
theorem stale_cache_entry_is_a_miss (env : Env σ) (ch c1 : Chan) (req : Request)
    (st : State σ) (fpath : String) (htok : ch.recv = .value c1)
    (hacc : env.AccessControl st.ext req.account = none)
    (hlen : req.queryName.utf8ByteSize = FileHashLen) (hop : req.operation = "download")
    (hrec : env.GetCacheRecord st.ext st.fs req.queryName = .ok fpath)
    (hstale : st.fs fpath = none ∨ st.fs fpath = some []) :
    ∃ st1, cacheLookup env req.queryName st = (none, st1) ∧
      getHandle env ch req st = release c1 (resolve env req st1) ∧
      st1.trace = st.trace ++ [.GetCacheRecord req.queryName] ∧ st1.ext = st.ext ∧
      st1.fs fpath = none ∧ (∀ p, p ≠ fpath → st1.fs p = st.fs p) ∧
      (st.fs fpath = none →
        env.GetCacheRecord st1.ext st1.fs req.queryName = .ok fpath) := by
  obtain ⟨st1, hlook, htrace, hext, hgone, hframe, hsame⟩ :=
    cacheLookup_stale env req.queryName fpath st hrec hstale
  refine ⟨st1, hlook, ?_, htrace, hext, hgone, hframe, ?_⟩
  · rw [getHandle_admitted env ch c1 req st htok, guarded_download env req st hacc hlen hop]
    simp [downloadFile, hlook]
  · intro h
    rw [hext, hsame h]
    exact hrec

theorem stale_cache_entry_is_a_miss_witness :
    ∃ st1, cacheLookup (Demo.env Demo.healthy) Demo.download.queryName Demo.emptyArtifact =
        (none, st1) ∧
      getHandle (Demo.env Demo.healthy) init Demo.download Demo.emptyArtifact =
        release { cap := 30, tokens := 29, closed := false }
          (resolve (Demo.env Demo.healthy) Demo.download st1) ∧
      st1.trace = Demo.emptyArtifact.trace ++ [.GetCacheRecord Demo.download.queryName] ∧
      st1.ext = Demo.emptyArtifact.ext ∧
      st1.fs Demo.cachePath = none ∧
      (∀ p, p ≠ Demo.cachePath → st1.fs p = Demo.emptyArtifact.fs p) ∧
      (Demo.emptyArtifact.fs Demo.cachePath = none →
        (Demo.env Demo.healthy).GetCacheRecord st1.ext st1.fs Demo.download.queryName =
          .ok Demo.cachePath) :=
  stale_cache_entry_is_a_miss (Demo.env Demo.healthy) init
    { cap := 30, tokens := 29, closed := false } Demo.download Demo.emptyArtifact Demo.cachePath
    (by decide) rfl (by decide) rfl rfl (Or.inr (by decide))

/-- C8, as stated, fails: the cache store has a record whose artifact is missing; after
the lookup the store still holds that record and resolves the identifier to the same
path, also after the whole request has been answered. -/
theorem stale_record_survives_lookup :
    Demo.missingArtifact.fs Demo.cachePath = none ∧
    Demo.missingArtifact.ext = [(Demo.fid, Demo.cachePath)] ∧
    (cacheLookup (Demo.env Demo.minersDown) Demo.fid Demo.missingArtifact).1 = none ∧
    (cacheLookup (Demo.env Demo.minersDown) Demo.fid Demo.missingArtifact).2.ext =
      [(Demo.fid, Demo.cachePath)] ∧
    ((Demo.env Demo.minersDown).GetCacheRecord
      (cacheLookup (Demo.env Demo.minersDown) Demo.fid Demo.missingArtifact).2.ext
      (cacheLookup (Demo.env Demo.minersDown) Demo.fid Demo.missingArtifact).2.fs
      Demo.fid).toOption = some Demo.cachePath ∧
    ((getHandle (Demo.env Demo.minersDown) init Demo.download Demo.missingArtifact).after
      Demo.missingArtifact).ext = [(Demo.fid, Demo.cachePath)] := by
  decide

theorem cacheLookup_ext (env : Env σ) (queryName : String) (st st1 : State σ)
    (r : Option String) (h : cacheLookup env queryName st = (r, st1)) : st1.ext = st.ext := by
  simp only [cacheLookup] at h
  split at h
  · cases h
    rfl
  · split at h
    · cases h
      rfl
    · split at h
      · cases h
        rfl
      · cases h
        rfl

theorem serveAndCache_response (env : Env σ) (queryName fpath : String) (st : State σ) :
    (serveAndCache env queryName fpath st).1 = .File fpath (st.fs fpath) ∧
    (serveAndCache env queryName fpath st).2.trace =
      st.trace ++ [.MoveFileToCache queryName fpath] := by
  simp [serveAndCache, State.log]

theorem transfer_isNotFound (env : Env σ) (req : Request) (completion : Bool) (size : Nat)
    (st : State σ) : (transfer env req completion size st).1.isNotFound = false := by
  simp only [transfer]
  split
  · simp [(serveAndCache_response env _ _ _).1, Response.isNotFound]
  · split
    · simp [Response.isNotFound, StatusInternalServerError, StatusNotFound]
    · split
      · simp [Response.isNotFound, StatusInternalServerError, StatusNotFound]
      · simp [(serveAndCache_response env _ _ _).1, Response.isNotFound]
      · simp [Response.isNotFound]
      · simp [Response.isNotFound]

theorem view_run (env : Env σ) (ch c1 : Chan) (req : Request) (st : State σ)
    (htok : ch.recv = .value c1) (hacc : env.AccessControl st.ext req.account = none)
    (hlen : req.queryName.utf8ByteSize = FileHashLen) :
    getHandle env ch { req with operation := "view" } st =
      release c1 (viewFile env { req with operation := "view" } st) := by
  rw [getHandle_admitted env ch c1 _ st htok,
    guarded_view env { req with operation := "view" } st hacc hlen rfl]

theorem download_run (env : Env σ) (ch c1 : Chan) (req : Request) (st : State σ)
    (htok : ch.recv = .value c1) (hacc : env.AccessControl st.ext req.account = none)
    (hlen : req.queryName.utf8ByteSize = FileHashLen)
    (hmiss : (cacheLookup env req.queryName st).1 = none) :
    getHandle env ch { req with operation := "download" } st =
      release c1 (resolve env { req with operation := "download" }
        (cacheLookup env req.queryName st).2) := by
  rw [getHandle_admitted env ch c1 _ st htok,
    guarded_download env { req with operation := "download" } st hacc hlen rfl]
  simp only [downloadFile]
  rcases hl : cacheLookup env req.queryName st with ⟨r, st1⟩
  rw [hl] at hmiss
  simp only at hmiss
  subst hmiss
  rfl

/-- C7. With no ledger transport error (and no cache hit for the download), a view and
a download of the same identifier are resolved alike when the ledger has committed
metadata or a pending order. With neither, the view is answered Not Found exactly when
the identifier is not in the tracked-file registry either, while the download is
answered Not Found without consulting the registry. -/
theorem resolution_by_intent (env : Env σ) (ch c1 : Chan) (req : Request) (st : State σ)
    (htok : ch.recv = .value c1) (hacc : env.AccessControl st.ext req.account = none)
    (hlen : req.queryName.utf8ByteSize = FileHashLen)
    (hmiss : (cacheLookup env req.queryName st).1 = none)
    (hfile : ∀ e, env.QueryFile st.ext req.queryName = .error e → e = env.ERR_Empty)
    (hdeal : ∀ e, env.QueryDealMap st.ext req.queryName = .error e → e = env.ERR_Empty) :
    ((getHandle env ch { req with operation := "view" } st).isNotFound = true ↔
      (∃ e, env.QueryFile st.ext req.queryName = .error e) ∧
      (∃ e, env.QueryDealMap st.ext req.queryName = .error e) ∧
      env.HasTrackFile st.ext req.queryName = false) ∧
    ((getHandle env ch { req with operation := "download" } st).isNotFound = true ↔
      (∃ e, env.QueryFile st.ext req.queryName = .error e) ∧
      (∃ e, env.QueryDealMap st.ext req.queryName = .error e)) ∧
    (∀ fmeta, env.QueryFile st.ext req.queryName = .ok fmeta →
      (getHandle env ch { req with operation := "view" } st).response =
        some (.JSON StatusOK (.fileMetadata (renderMetadata env fmeta))) ∧
      getHandle env ch { req with operation := "download" } st =
        release c1 (transfer env { req with operation := "download" } true
          (fmeta.FileSize % 2 ^ 64)
          ((cacheLookup env req.queryName st).2.log (.QueryFile req.queryName)))) ∧
    (∀ e order, env.QueryFile st.ext req.queryName = .error e →
      env.QueryDealMap st.ext req.queryName = .ok order →
      (getHandle env ch { req with operation := "view" } st).response =
        some (.JSON StatusOK (.str "storage order created")) ∧
      getHandle env ch { req with operation := "download" } st =
        release c1 (transfer env { req with operation := "download" } false
          (order.FileSize % 2 ^ 64)
          (((cacheLookup env req.queryName st).2.log (.QueryFile req.queryName)).log
            (.QueryDealMap req.queryName)))) := by
  have hv := view_run env ch c1 req st htok hacc hlen
  have hd := download_run env ch c1 req st htok hacc hlen hmiss
  have hext : (cacheLookup env req.queryName st).2.ext = st.ext :=
    cacheLookup_ext env req.queryName st _ _ rfl
  rw [hv, hd]
  simp only [release_isNotFound]
  generalize (cacheLookup env req.queryName st).2 = st1 at hext ⊢
  have hqf1 : env.QueryFile (st.log (.QueryFile req.queryName)).ext req.queryName =
      env.QueryFile st.ext req.queryName := rfl
  have hqf2 : env.QueryFile (st1.log (.QueryFile req.queryName)).ext req.queryName =
      env.QueryFile st.ext req.queryName := by
    show env.QueryFile st1.ext req.queryName = _
    rw [hext]
  have hqd1 : env.QueryDealMap
      ((st.log (.QueryFile req.queryName)).log (.QueryDealMap req.queryName)).ext
      req.queryName = env.QueryDealMap st.ext req.queryName := rfl
  have hqd2 : env.QueryDealMap
      ((st1.log (.QueryFile req.queryName)).log (.QueryDealMap req.queryName)).ext
      req.queryName = env.QueryDealMap st.ext req.queryName := by
    show env.QueryDealMap st1.ext req.queryName = _
    rw [hext]
  have htr : env.HasTrackFile
      ((st.log (.QueryFile req.queryName)).log (.QueryDealMap req.queryName)).ext
      req.queryName = env.HasTrackFile st.ext req.queryName := rfl
  cases hqf : env.QueryFile st.ext req.queryName with
  | ok fmeta =>
    rw [hqf] at hqf1 hqf2
    have e1 : viewFile env { req with operation := "view" } st =
        (.JSON StatusOK (.fileMetadata (renderMetadata env fmeta)),
          st.log (.QueryFile req.queryName)) := by
      simp only [viewFile, hqf1]
    have e2 : resolve env { req with operation := "download" } st1 =
        transfer env { req with operation := "download" } true (fmeta.FileSize % 2 ^ 64)
          (st1.log (.QueryFile req.queryName)) := by
      simp only [resolve, hqf2]
    rw [e1, e2]
    refine ⟨?_, ?_, ?_, ?_⟩
    · simp [Response.isNotFound, StatusOK, StatusNotFound]
    · simp [transfer_isNotFound]
    · intro fm hfm
      cases hfm
      exact ⟨(release_response c1 _ _ (by simp)).1, rfl⟩
    · intro e order he
      cases he
  | error e =>
    have he : e = env.ERR_Empty := hfile e hqf
    subst he
    rw [hqf] at hqf1 hqf2
    cases hqd : env.QueryDealMap st.ext req.queryName with
    | ok order =>
      rw [hqd] at hqd1 hqd2
      have e1 : viewFile env { req with operation := "view" } st =
          (.JSON StatusOK (.str "storage order created"),
            (st.log (.QueryFile req.queryName)).log (.QueryDealMap req.queryName)) := by
        simp only [viewFile, hqf1, hqd1, ne_eq, not_true_eq_false, if_false]
      have e2 : resolve env { req with operation := "download" } st1 =
          transfer env { req with operation := "download" } false (order.FileSize % 2 ^ 64)
            ((st1.log (.QueryFile req.queryName)).log (.QueryDealMap req.queryName)) := by
        simp only [resolve, hqf2, hqd2, ne_eq, not_true_eq_false, if_false]
      rw [e1, e2]
      refine ⟨?_, ?_, ?_, ?_⟩
      · simp [Response.isNotFound, StatusOK, StatusNotFound]
      · simp [transfer_isNotFound]
      · intro fm hfm
        cases hfm
      · intro e order1 _ ho
        cases ho
        exact ⟨(release_response c1 _ _ (by simp)).1, rfl⟩
    | error e2 =>
      have he2 : e2 = env.ERR_Empty := hdeal e2 hqd
      subst he2
      rw [hqd] at hqd1 hqd2
      have e2 : resolve env { req with operation := "download" } st1 =
          (.JSON StatusNotFound (.str env.ERR_NotFound),
            (st1.log (.QueryFile req.queryName)).log (.QueryDealMap req.queryName)) := by
        simp only [resolve, hqf2, hqd2, ne_eq, not_true_eq_false, if_false]
      rw [e2]
      refine ⟨?_, ?_, ?_, ?_⟩
      · cases ht : env.HasTrackFile st.ext req.queryName with
        | true =>
          rw [ht] at htr
          have e1 : viewFile env { req with operation := "view" } st =
              (.JSON StatusOK (.str "storage order created"),
                (st.log (.QueryFile req.queryName)).log (.QueryDealMap req.queryName)) := by
            simp [viewFile, hqf1, hqd1, htr]
          rw [e1]
          simp [Response.isNotFound, StatusOK, StatusNotFound]
        | false =>
          rw [ht] at htr
          have e1 : viewFile env { req with operation := "view" } st =
              (.JSON StatusNotFound (.str "NotFound"),
                (st.log (.QueryFile req.queryName)).log (.QueryDealMap req.queryName)) := by
            simp [viewFile, hqf1, hqd1, htr]
          rw [e1]
          simp [Response.isNotFound]
      · simp [Response.isNotFound]
      · intro fm hfm
        cases hfm
      · intro e order _ ho
        cases ho

theorem resolution_by_intent_witness :
    (getHandle (Demo.env Demo.unknown) init { Demo.download with operation := "download" }
      Demo.st0).isNotFound = true ↔
      (∃ e, (Demo.env Demo.unknown).QueryFile Demo.st0.ext Demo.download.queryName = .error e) ∧
      (∃ e, (Demo.env Demo.unknown).QueryDealMap Demo.st0.ext Demo.download.queryName =
        .error e) :=
  (resolution_by_intent (Demo.env Demo.unknown) init { cap := 30, tokens := 29, closed := false }
    Demo.download Demo.st0 (by decide) rfl (by decide) (by decide)
    (fun e h => by
      have h0 : (Demo.env Demo.unknown).QueryFile Demo.st0.ext Demo.download.queryName =
          .error "empty" := rfl
      rw [h0] at h
      cases h
      rfl)
    (fun e h => by
      have h0 : (Demo.env Demo.unknown).QueryDealMap Demo.st0.ext Demo.download.queryName =
          .error "empty" := rfl
      rw [h0] at h
      cases h
      rfl)).2.1

/-- C7, as stated, fails: for an identifier the ledger does not know and this gateway
tracks, the view is answered OK, storage order created, and the download Not Found. -/
theorem tracked_file_view_differs_from_download :
    (Demo.env Demo.trackedOnly).HasTrackFile Demo.st0.ext Demo.fid = true ∧
    Demo.view.queryName = Demo.download.queryName ∧
    (cacheLookup (Demo.env Demo.trackedOnly) Demo.fid Demo.st0).1 = none ∧
    (getHandle (Demo.env Demo.trackedOnly) init Demo.view Demo.st0).response =
      some (.JSON 200 (.str "storage order created")) ∧
    (getHandle (Demo.env Demo.trackedOnly) init Demo.download Demo.st0).response =
      some (.JSON 404 (.str "Not found")) ∧
    (getHandle (Demo.env Demo.trackedOnly) init Demo.view Demo.st0).isNotFound = false ∧
    (getHandle (Demo.env Demo.trackedOnly) init Demo.download Demo.st0).isNotFound = true := by
  decide

theorem tryGateways_trace (env : Env σ) (queryName fpath : String) (size : Int) :
    ∀ (peers : List String) (st : State σ),
      ∃ calls, (tryGateways env queryName fpath size peers st).2.trace = st.trace ++ calls ∧
        (∀ c ∈ calls, c.isFragmentLevel = false) ∧
        (peers = [] → calls = [] ∧ tryGateways env queryName fpath size peers st = (false, st))
    := by
  intro peers
  induction peers with
  | nil =>
    intro st
    exact ⟨[], by simp [tryGateways], by simp, fun _ => ⟨rfl, rfl⟩⟩
  | cons v rest ih =>
    intro st
    simp only [tryGateways]
    split
    · obtain ⟨calls, h1, h2, _⟩ := ih (st.log (.GetPeer v))
      refine ⟨.GetPeer v :: calls, by rw [h1]; simp [State.log], ?_, by simp⟩
      intro c hc
      rcases List.mem_cons.1 hc with rfl | hc
      · rfl
      · exact h2 c hc
    · split
      · obtain ⟨calls, h1, h2, _⟩ := ih (st.log (.GetPeer v))
        refine ⟨.GetPeer v :: calls, by rw [h1]; simp [State.log], ?_, by simp⟩
        intro c hc
        rcases List.mem_cons.1 hc with rfl | hc
        · rfl
        · exact h2 c hc
      · rename_i addr _ _
        split
        · rename_i ext _
          obtain ⟨calls, h1, h2, _⟩ :=
            ih { (st.log (.GetPeer v)).log (.Connect addr) with ext := ext }
          refine ⟨.GetPeer v :: .Connect addr :: calls, by rw [h1]; simp [State.log], ?_, by simp⟩
          intro c hc
          rcases List.mem_cons.1 hc with rfl | hc
          · rfl
          · rcases List.mem_cons.1 hc with rfl | hc
            · rfl
            · exact h2 c hc
        · rename_i ext _
          split
          · rename_i ext2 fs2 _
            obtain ⟨calls, h1, h2, _⟩ :=
              ih { ({ (st.log (.GetPeer v)).log (.Connect addr) with ext := ext }).log
                (.ReadDataAction addr.ID queryName fpath size) with ext := ext2, fs := fs2 }
            refine ⟨.GetPeer v :: .Connect addr ::
              .ReadDataAction addr.ID queryName fpath size :: calls,
              by rw [h1]; simp [State.log], ?_, by simp⟩
            intro c hc
            rcases List.mem_cons.1 hc with rfl | hc
            · rfl
            · rcases List.mem_cons.1 hc with rfl | hc
              · rfl
              · rcases List.mem_cons.1 hc with rfl | hc
                · rfl
                · exact h2 c hc
          · refine ⟨[.GetPeer v, .Connect addr, .ReadDataAction addr.ID queryName fpath size],
              by simp [State.log], ?_, by simp⟩
            intro c hc
            simp only [List.mem_cons, List.mem_singleton, List.not_mem_nil, or_false] at hc
            rcases hc with rfl | rfl | rfl <;> rfl

theorem tryGateways_unresolved (env : Env σ) (queryName fpath : String) (size : Int)
    (v : String) (rest : List String) (st : State σ) (e : String)
    (hpeer : env.GetPeer st.ext v = .error e) :
    tryGateways env queryName fpath size (v :: rest) st =
      tryGateways env queryName fpath size rest (st.log (.GetPeer v)) := by
  have h1 : env.GetPeer (st.log (.GetPeer v)).ext v = .error e := hpeer
  simp only [tryGateways, h1]

theorem tryGateways_self (env : Env σ) (queryName fpath : String) (size : Int)
    (v : String) (rest : List String) (st : State σ) (addr : AddrInfo)
    (hpeer : env.GetPeer st.ext v = .ok addr) (hself : env.ID = v) :
    tryGateways env queryName fpath size (v :: rest) st =
      tryGateways env queryName fpath size rest (st.log (.GetPeer v)) := by
  have h1 : env.GetPeer (st.log (.GetPeer v)).ext v = .ok addr := hpeer
  simp only [tryGateways, h1, hself, if_true]

theorem tryGateways_unconnected (env : Env σ) (queryName fpath : String) (size : Int)
    (v : String) (rest : List String) (st : State σ) (addr : AddrInfo) (e : String) (w1 : σ)
    (hpeer : env.GetPeer st.ext v = .ok addr) (hself : env.ID ≠ v)
    (hconn : env.Connect st.ext addr = (some e, w1)) :
    tryGateways env queryName fpath size (v :: rest) st =
      tryGateways env queryName fpath size rest
        { fs := st.fs, ext := w1, trace := st.trace ++ [.GetPeer v, .Connect addr] } := by
  have h1 : env.GetPeer (st.log (.GetPeer v)).ext v = .ok addr := hpeer
  have h2 : env.Connect ((st.log (.GetPeer v)).log (.Connect addr)).ext addr = (some e, w1) :=
    hconn
  simp only [tryGateways, h1, hself, if_false, h2]
  simp [State.log]

theorem tryGateways_undelivered (env : Env σ) (queryName fpath : String) (size : Int)
    (v : String) (rest : List String) (st : State σ) (addr : AddrInfo) (e : String)
    (w1 w2 : σ) (fs2 : FS) (hpeer : env.GetPeer st.ext v = .ok addr) (hself : env.ID ≠ v)
    (hconn : env.Connect st.ext addr = (none, w1))
    (hread : env.ReadDataAction w1 st.fs addr.ID queryName fpath size = (some e, w2, fs2)) :
    tryGateways env queryName fpath size (v :: rest) st =
      tryGateways env queryName fpath size rest
        { fs := fs2, ext := w2,
          trace := st.trace ++ [.GetPeer v, .Connect addr,
            .ReadDataAction addr.ID queryName fpath size] } := by
  have h1 : env.GetPeer (st.log (.GetPeer v)).ext v = .ok addr := hpeer
  have h2 : env.Connect ((st.log (.GetPeer v)).log (.Connect addr)).ext addr = (none, w1) :=
    hconn
  have h3 : env.ReadDataAction
      (({ (st.log (.GetPeer v)).log (.Connect addr) with ext := w1 } : State σ).log
        (.ReadDataAction addr.ID queryName fpath size)).ext
      (({ (st.log (.GetPeer v)).log (.Connect addr) with ext := w1 } : State σ).log
        (.ReadDataAction addr.ID queryName fpath size)).fs addr.ID queryName fpath size =
      (some e, w2, fs2) := hread
  simp only [tryGateways, h1, hself, if_false, h2, h3]
  simp [State.log]

theorem tryGateways_delivered (env : Env σ) (queryName fpath : String) (size : Int)
    (v : String) (rest : List String) (st : State σ) (addr : AddrInfo) (w1 w2 : σ) (fs2 : FS)
    (hpeer : env.GetPeer st.ext v = .ok addr) (hself : env.ID ≠ v)
    (hconn : env.Connect st.ext addr = (none, w1))
    (hread : env.ReadDataAction w1 st.fs addr.ID queryName fpath size = (none, w2, fs2)) :
    tryGateways env queryName fpath size (v :: rest) st =
      (true,
        { fs := fs2, ext := w2,
          trace := st.trace ++ [.GetPeer v, .Connect addr,
            .ReadDataAction addr.ID queryName fpath size] }) := by
  have h1 : env.GetPeer (st.log (.GetPeer v)).ext v = .ok addr := hpeer
  have h2 : env.Connect ((st.log (.GetPeer v)).log (.Connect addr)).ext addr = (none, w1) :=
    hconn
  have h3 : env.ReadDataAction
      (({ (st.log (.GetPeer v)).log (.Connect addr) with ext := w1 } : State σ).log
        (.ReadDataAction addr.ID queryName fpath size)).ext
      (({ (st.log (.GetPeer v)).log (.Connect addr) with ext := w1 } : State σ).log
        (.ReadDataAction addr.ID queryName fpath size)).fs addr.ID queryName fpath size =
      (none, w2, fs2) := hread
  simp only [tryGateways, h1, hself, if_false, h2, h3]
  simp [State.log]

theorem tryGateways_all_fail (env : Env σ) (queryName fpath : String) (size : Int) :
    ∀ (peers : List String) (st : State σ),
      (∀ v ∈ peers, GatewayFails env queryName fpath size v) →
      (tryGateways env queryName fpath size peers st).1 = false := by
  intro peers
  induction peers with
  | nil =>
    intro st _
    rfl
  | cons v rest ih =>
    intro st hfail
    have hrest : ∀ u ∈ rest, GatewayFails env queryName fpath size u :=
      fun u hu => hfail u (List.mem_cons_of_mem _ hu)
    cases hpeer : env.GetPeer st.ext v with
    | error e =>
      rw [tryGateways_unresolved env queryName fpath size v rest st e hpeer]
      exact ih _ hrest
    | ok addr =>
      by_cases hself : env.ID = v
      · rw [tryGateways_self env queryName fpath size v rest st addr hpeer hself]
        exact ih _ hrest
      · rcases hconn : env.Connect st.ext addr with ⟨ce, w1⟩
        cases ce with
        | some e =>
          rw [tryGateways_unconnected env queryName fpath size v rest st addr e w1 hpeer hself
            hconn]
          exact ih _ hrest
        | none =>
          rcases hread : env.ReadDataAction w1 st.fs addr.ID queryName fpath size
            with ⟨re, w2, fs2⟩
          cases re with
          | some e =>
            rw [tryGateways_undelivered env queryName fpath size v rest st addr e w1 w2 fs2
              hpeer hself hconn hread]
            exact ih _ hrest
          | none =>
            rcases hfail v (List.mem_cons_self _ _) st.ext addr hpeer with h | h | h
            · exact absurd h hself
            · rw [hconn] at h
              exact absurd rfl h
            · have := h w1 st.fs
              rw [hread] at this
              exact absurd rfl this

theorem tryGateways_success (env : Env σ) (queryName fpath : String) (size : Int) :
    ∀ (peers : List String) (st st5 : State σ),
      tryGateways env queryName fpath size peers st = (true, st5) →
      ∃ (v : String) (addr : AddrInfo) (w : σ) (fs : FS), v ∈ peers ∧ env.ID ≠ v ∧
        st5.trace.getLast? = some (.ReadDataAction addr.ID queryName fpath size) ∧
        env.ReadDataAction w fs addr.ID queryName fpath size = (none, st5.ext, st5.fs) := by
  intro peers
  induction peers with
  | nil =>
    intro st st5 h
    simp [tryGateways] at h
  | cons v rest ih =>
    intro st st5 h
    have lift : ∀ st2, tryGateways env queryName fpath size rest st2 = (true, st5) →
        ∃ (u : String) (addr : AddrInfo) (w : σ) (fs : FS), u ∈ v :: rest ∧ env.ID ≠ u ∧
          st5.trace.getLast? = some (.ReadDataAction addr.ID queryName fpath size) ∧
          env.ReadDataAction w fs addr.ID queryName fpath size = (none, st5.ext, st5.fs) := by
      intro st2 h2
      obtain ⟨u, addr, w, fs, hu, h3⟩ := ih st2 st5 h2
      exact ⟨u, addr, w, fs, List.mem_cons_of_mem _ hu, h3⟩
    cases hpeer : env.GetPeer st.ext v with
    | error e =>
      rw [tryGateways_unresolved env queryName fpath size v rest st e hpeer] at h
      exact lift _ h
    | ok addr =>
      by_cases hself : env.ID = v
      · rw [tryGateways_self env queryName fpath size v rest st addr hpeer hself] at h
        exact lift _ h
      · rcases hconn : env.Connect st.ext addr with ⟨ce, w1⟩
        cases ce with
        | some e =>
          rw [tryGateways_unconnected env queryName fpath size v rest st addr e w1 hpeer hself
            hconn] at h
          exact lift _ h
        | none =>
          rcases hread : env.ReadDataAction w1 st.fs addr.ID queryName fpath size
            with ⟨re, w2, fs2⟩
          cases re with
          | some e =>
            rw [tryGateways_undelivered env queryName fpath size v rest st addr e w1 w2 fs2
              hpeer hself hconn hread] at h
            exact lift _ h
          | none =>
            rw [tryGateways_delivered env queryName fpath size v rest st addr w1 w2 fs2 hpeer
              hself hconn hread] at h
            cases h
            exact ⟨v, addr, w1, st.fs, List.mem_cons_self _ _, hself, by simp, hread⟩

theorem transfer_pending (env : Env σ) (req : Request) (size : Nat) (st : State σ) :
    ∃ resp st2 calls, transfer env req false size st = (resp, st2) ∧
      st2.trace = st.trace ++ [.QueryAllOssPeerId] ++ calls ∧
      (∀ c ∈ calls, c.isFragmentLevel = false) ∧
      (resp = .JSON StatusInternalServerError (.str pendingOrderMessage) ∨
        ∃ content, resp = .File (Join [env.FileDir, req.queryName]) content) ∧
      (env.QueryAllOssPeerId st.ext = [] →
        resp = .JSON StatusInternalServerError (.str pendingOrderMessage) ∧ calls = []) := by
  obtain ⟨calls, h1, h2, h3⟩ :=
    tryGateways_trace env req.queryName (Join [env.FileDir, req.queryName]) (int64 size)
      (env.QueryAllOssPeerId (st.log .QueryAllOssPeerId).ext) (st.log .QueryAllOssPeerId)
  simp only [transfer]
  rcases hg : tryGateways env req.queryName (Join [env.FileDir, req.queryName]) (int64 size)
      (env.QueryAllOssPeerId (st.log .QueryAllOssPeerId).ext) (st.log .QueryAllOssPeerId)
    with ⟨b, st5⟩
  rw [hg] at h1 h3
  simp only at h1
  cases b with
  | true =>
    refine ⟨_, _, calls ++ [.MoveFileToCache req.queryName (Join [env.FileDir, req.queryName])],
      rfl, ?_, ?_, Or.inr ⟨_, rfl⟩, ?_⟩
    · simp [serveAndCache, State.log, h1]
    · intro c hc
      rcases List.mem_append.1 hc with hc | hc
      · exact h2 c hc
      · simp only [List.mem_singleton] at hc
        subst hc
        rfl
    · intro hnil
      have := (h3 hnil).2
      simp at this
  | false =>
    refine ⟨_, _, calls, rfl, ?_, h2, Or.inl rfl, ?_⟩
    · simp [h1, State.log]
    · intro hnil
      exact ⟨rfl, (h3 hnil).1⟩

theorem pending_order_calls (env : Env σ) (ch c1 : Chan) (req : Request) (st : State σ)
    (order : chain.StorageOrder) (htok : ch.recv = .value c1)
    (hacc : env.AccessControl st.ext req.account = none)
    (hlen : req.queryName.utf8ByteSize = FileHashLen) (hop : req.operation = "download")
    (hmiss : (cacheLookup env req.queryName st).1 = none)
    (hfile : env.QueryFile st.ext req.queryName = .error env.ERR_Empty)
    (hdeal : env.QueryDealMap st.ext req.queryName = .ok order) :
    ∃ resp st2 calls, getHandle env ch req st = release c1 (resp, st2) ∧
      st2.trace = (cacheLookup env req.queryName st).2.trace ++
        [.QueryFile req.queryName, .QueryDealMap req.queryName, .QueryAllOssPeerId] ++ calls ∧
      (∀ c ∈ calls, c.isFragmentLevel = false) ∧
      (resp = .JSON StatusInternalServerError (.str pendingOrderMessage) ∨
        ∃ content, resp = .File (Join [env.FileDir, req.queryName]) content) ∧
      (env.QueryAllOssPeerId st.ext = [] →
        resp = .JSON StatusInternalServerError (.str pendingOrderMessage) ∧ calls = []) := by
  have hext : (cacheLookup env req.queryName st).2.ext = st.ext :=
    cacheLookup_ext env req.queryName st _ _ rfl
  have hrun : getHandle env ch req st =
      release c1 (resolve env req (cacheLookup env req.queryName st).2) := by
    rw [getHandle_admitted env ch c1 req st htok, guarded_download env req st hacc hlen hop]
    simp only [downloadFile]
    rcases hl : cacheLookup env req.queryName st with ⟨r, st1⟩
    rw [hl] at hmiss
    simp only at hmiss
    subst hmiss
    rfl
  generalize (cacheLookup env req.queryName st).2 = st1 at hext hrun ⊢
  have hqf : env.QueryFile (st1.log (.QueryFile req.queryName)).ext req.queryName =
      .error env.ERR_Empty := by
    show env.QueryFile st1.ext req.queryName = _
    rw [hext]
    exact hfile
  have hqd : env.QueryDealMap
      ((st1.log (.QueryFile req.queryName)).log (.QueryDealMap req.queryName)).ext
      req.queryName = .ok order := by
    show env.QueryDealMap st1.ext req.queryName = _
    rw [hext]
    exact hdeal
  have hres : resolve env req st1 =
      transfer env req false (order.FileSize % 2 ^ 64)
        ((st1.log (.QueryFile req.queryName)).log (.QueryDealMap req.queryName)) := by
    simp only [resolve, hqf, hqd, ne_eq, not_true_eq_false, if_false]
  obtain ⟨resp, st2, calls, h1, h2, h3, h4, h5⟩ :=
    transfer_pending env req (order.FileSize % 2 ^ 64)
      ((st1.log (.QueryFile req.queryName)).log (.QueryDealMap req.queryName))
  refine ⟨resp, st2, calls, ?_, ?_, h3, h4, ?_⟩
  · rw [hrun, hres, h1]
  · rw [h2]
    simp [State.log]
  · intro hnil
    apply h5
    show env.QueryAllOssPeerId st1.ext = []
    rw [hext]
    exact hnil

/-- C6. A download (no cache hit) of an identifier with a pending order and no committed
metadata asks the peer gateways, in the order of the list, for the whole file with the
size of the order. A gateway whose address does not resolve, that is this node, that
cannot be connected or whose transfer fails is passed over; the first gateway whose
`ReadDataAction` succeeds ends the loop, the client is answered with the file that call
left at the output path, and the file is handed to the cache. When no gateway delivers
the answer is Internal Error with the message that names the original gateway. The
fragment-level path (miner lookup, fragment transfer, reconstruction) is never entered,
and with no peer gateway known no peer is contacted at all. -/
theorem pending_order_download (env : Env σ) (ch c1 : Chan) (req : Request) (st : State σ)
    (order : chain.StorageOrder) (htok : ch.recv = .value c1)
    (hacc : env.AccessControl st.ext req.account = none)
    (hlen : req.queryName.utf8ByteSize = FileHashLen) (hop : req.operation = "download")
    (hmiss : (cacheLookup env req.queryName st).1 = none)
    (hfile : env.QueryFile st.ext req.queryName = .error env.ERR_Empty)
    (hdeal : env.QueryDealMap st.ext req.queryName = .ok order) :
    (∃ resp st2 calls, getHandle env ch req st = release c1 (resp, st2) ∧
      st2.trace = (cacheLookup env req.queryName st).2.trace ++
        [.QueryFile req.queryName, .QueryDealMap req.queryName, .QueryAllOssPeerId] ++ calls ∧
      (∀ c ∈ calls, c.isFragmentLevel = false) ∧
      (resp = .JSON StatusInternalServerError (.str pendingOrderMessage) ∨
        ∃ content, resp = .File (Join [env.FileDir, req.queryName]) content) ∧
      (env.QueryAllOssPeerId st.ext = [] →
        resp = .JSON StatusInternalServerError (.str pendingOrderMessage) ∧ calls = [])) ∧
    (∀ st5 : State σ,
      tryGateways env req.queryName (Join [env.FileDir, req.queryName])
        (int64 (order.FileSize % 2 ^ 64)) (env.QueryAllOssPeerId st.ext)
        ((((cacheLookup env req.queryName st).2.log (.QueryFile req.queryName)).log
          (.QueryDealMap req.queryName)).log .QueryAllOssPeerId) = (true, st5) →
      getHandle env ch req st =
        release c1 (.File (Join [env.FileDir, req.queryName])
          (st5.fs (Join [env.FileDir, req.queryName])),
          { fs := (env.MoveFileToCache st5.ext st5.fs req.queryName
              (Join [env.FileDir, req.queryName])).2.2,
            ext := (env.MoveFileToCache st5.ext st5.fs req.queryName
              (Join [env.FileDir, req.queryName])).2.1,
            trace := st5.trace ++
              [.MoveFileToCache req.queryName (Join [env.FileDir, req.queryName])] })) ∧
    (∀ st5 : State σ,
      tryGateways env req.queryName (Join [env.FileDir, req.queryName])
        (int64 (order.FileSize % 2 ^ 64)) (env.QueryAllOssPeerId st.ext)
        ((((cacheLookup env req.queryName st).2.log (.QueryFile req.queryName)).log
          (.QueryDealMap req.queryName)).log .QueryAllOssPeerId) = (false, st5) →
      getHandle env ch req st =
        release c1 (.JSON StatusInternalServerError (.str pendingOrderMessage), st5)) ∧
    (∀ (v : String) (rest : List String) (addr : AddrInfo) (w1 w2 : σ) (fs2 : FS),
      env.QueryAllOssPeerId st.ext = v :: rest →
      env.GetPeer st.ext v = .ok addr → env.ID ≠ v →
      env.Connect st.ext addr = (none, w1) →
      env.ReadDataAction w1 (cacheLookup env req.queryName st).2.fs addr.ID req.queryName
        (Join [env.FileDir, req.queryName]) (int64 (order.FileSize % 2 ^ 64)) =
        (none, w2, fs2) →
      (getHandle env ch req st).response =
        some (.File (Join [env.FileDir, req.queryName])
          (fs2 (Join [env.FileDir, req.queryName]))) ∧
      ((getHandle env ch req st).after st).trace =
        (cacheLookup env req.queryName st).2.trace ++
          [.QueryFile req.queryName, .QueryDealMap req.queryName, .QueryAllOssPeerId,
            .GetPeer v, .Connect addr,
            .ReadDataAction addr.ID req.queryName (Join [env.FileDir, req.queryName])
              (int64 (order.FileSize % 2 ^ 64)),
            .MoveFileToCache req.queryName (Join [env.FileDir, req.queryName])] ∧
      ((getHandle env ch req st).after st).ext =
        (env.MoveFileToCache w2 fs2 req.queryName (Join [env.FileDir, req.queryName])).2.1 ∧
      ((getHandle env ch req st).after st).fs =
        (env.MoveFileToCache w2 fs2 req.queryName (Join [env.FileDir, req.queryName])).2.2) ∧
    ((∀ v ∈ env.QueryAllOssPeerId st.ext,
        GatewayFails env req.queryName (Join [env.FileDir, req.queryName])
          (int64 (order.FileSize % 2 ^ 64)) v) →
      (getHandle env ch req st).response =
        some (.JSON StatusInternalServerError (.str pendingOrderMessage))) ∧
    (∀ (peers : List String) (s s5 : State σ),
      tryGateways env req.queryName (Join [env.FileDir, req.queryName])
        (int64 (order.FileSize % 2 ^ 64)) peers s = (true, s5) →
      ∃ (v : String) (addr : AddrInfo) (w : σ) (fs : FS), v ∈ peers ∧ env.ID ≠ v ∧
        s5.trace.getLast? = some (.ReadDataAction addr.ID req.queryName
          (Join [env.FileDir, req.queryName]) (int64 (order.FileSize % 2 ^ 64))) ∧
        env.ReadDataAction w fs addr.ID req.queryName (Join [env.FileDir, req.queryName])
          (int64 (order.FileSize % 2 ^ 64)) = (none, s5.ext, s5.fs)) ∧
    (∀ (v : String) (rest : List String) (s : State σ) (size : Int),
      (∀ e, env.GetPeer s.ext v = .error e →
        tryGateways env req.queryName (Join [env.FileDir, req.queryName]) size (v :: rest) s =
          tryGateways env req.queryName (Join [env.FileDir, req.queryName]) size rest
            (s.log (.GetPeer v))) ∧
      (∀ addr, env.GetPeer s.ext v = .ok addr → env.ID = v →
        tryGateways env req.queryName (Join [env.FileDir, req.queryName]) size (v :: rest) s =
          tryGateways env req.queryName (Join [env.FileDir, req.queryName]) size rest
            (s.log (.GetPeer v))) ∧
      (∀ addr e w1, env.GetPeer s.ext v = .ok addr → env.ID ≠ v →
        env.Connect s.ext addr = (some e, w1) →
        tryGateways env req.queryName (Join [env.FileDir, req.queryName]) size (v :: rest) s =
          tryGateways env req.queryName (Join [env.FileDir, req.queryName]) size rest
            { fs := s.fs, ext := w1, trace := s.trace ++ [.GetPeer v, .Connect addr] }) ∧
      (∀ addr e w1 w2 fs2, env.GetPeer s.ext v = .ok addr → env.ID ≠ v →
        env.Connect s.ext addr = (none, w1) →
        env.ReadDataAction w1 s.fs addr.ID req.queryName (Join [env.FileDir, req.queryName])
          size = (some e, w2, fs2) →
        tryGateways env req.queryName (Join [env.FileDir, req.queryName]) size (v :: rest) s =
          tryGateways env req.queryName (Join [env.FileDir, req.queryName]) size rest
            { fs := fs2, ext := w2,
              trace := s.trace ++ [.GetPeer v, .Connect addr,
                .ReadDataAction addr.ID req.queryName (Join [env.FileDir, req.queryName])
                  size] }) ∧
      (∀ addr w1 w2 fs2, env.GetPeer s.ext v = .ok addr → env.ID ≠ v →
        env.Connect s.ext addr = (none, w1) →
        env.ReadDataAction w1 s.fs addr.ID req.queryName (Join [env.FileDir, req.queryName])
          size = (none, w2, fs2) →
        tryGateways env req.queryName (Join [env.FileDir, req.queryName]) size (v :: rest) s =
          (true,
            { fs := fs2, ext := w2,
              trace := s.trace ++ [.GetPeer v, .Connect addr,
                .ReadDataAction addr.ID req.queryName (Join [env.FileDir, req.queryName])
                  size] }))) := by
  have hext : (cacheLookup env req.queryName st).2.ext = st.ext :=
    cacheLookup_ext env req.queryName st _ _ rfl
  have hrun : getHandle env ch req st =
      release c1 (transfer env req false (order.FileSize % 2 ^ 64)
        (((cacheLookup env req.queryName st).2.log (.QueryFile req.queryName)).log
          (.QueryDealMap req.queryName))) := by
    have hname := name_is_hash req.queryName hlen
    have hview : ¬ ("download" = "view") := by decide
    have hqf : env.QueryFile
        ((cacheLookup env req.queryName st).2.log (.QueryFile req.queryName)).ext
        req.queryName = .error env.ERR_Empty := by
      show env.QueryFile (cacheLookup env req.queryName st).2.ext req.queryName = _
      rw [hext]
      exact hfile
    have hqd : env.QueryDealMap
        (((cacheLookup env req.queryName st).2.log (.QueryFile req.queryName)).log
          (.QueryDealMap req.queryName)).ext req.queryName = .ok order := by
      show env.QueryDealMap (cacheLookup env req.queryName st).2.ext req.queryName = _
      rw [hext]
      exact hdeal
    rcases hl : cacheLookup env req.queryName st with ⟨r, st1⟩
    rw [hl] at hmiss hqf hqd
    simp only at hmiss hqf hqd
    subst hmiss
    simp only [getHandle, htok, guarded, hacc, hname.1, hname.2, hlen, hop, hview, if_false, if_true,
      ne_eq, not_true_eq_false, downloadFile, hl, resolve, hqf, hqd]
  have hpeers : env.QueryAllOssPeerId
      (((cacheLookup env req.queryName st).2.log (.QueryFile req.queryName)).log
        (.QueryDealMap req.queryName)).ext = env.QueryAllOssPeerId st.ext := by
    show env.QueryAllOssPeerId (cacheLookup env req.queryName st).2.ext = _
    rw [hext]
  have hdelivered : ∀ st5 : State σ,
      tryGateways env req.queryName (Join [env.FileDir, req.queryName])
        (int64 (order.FileSize % 2 ^ 64)) (env.QueryAllOssPeerId st.ext)
        ((((cacheLookup env req.queryName st).2.log (.QueryFile req.queryName)).log
          (.QueryDealMap req.queryName)).log .QueryAllOssPeerId) = (true, st5) →
      getHandle env ch req st =
        release c1 (.File (Join [env.FileDir, req.queryName])
          (st5.fs (Join [env.FileDir, req.queryName])),
          { fs := (env.MoveFileToCache st5.ext st5.fs req.queryName
              (Join [env.FileDir, req.queryName])).2.2,
            ext := (env.MoveFileToCache st5.ext st5.fs req.queryName
              (Join [env.FileDir, req.queryName])).2.1,
            trace := st5.trace ++
              [.MoveFileToCache req.queryName (Join [env.FileDir, req.queryName])] }) := by
    intro st5 h
    rw [← hpeers] at h
    have h1 : tryGateways env req.queryName (Join [env.FileDir, req.queryName])
        (int64 (order.FileSize % 2 ^ 64))
        (env.QueryAllOssPeerId
          ((((cacheLookup env req.queryName st).2.log (.QueryFile req.queryName)).log
            (.QueryDealMap req.queryName)).log .QueryAllOssPeerId).ext)
        ((((cacheLookup env req.queryName st).2.log (.QueryFile req.queryName)).log
          (.QueryDealMap req.queryName)).log .QueryAllOssPeerId) = (true, st5) := h
    rw [hrun]
    simp only [transfer, h1]
    simp only [serveAndCache, State.log]
  have hfailed : ∀ st5 : State σ,
      tryGateways env req.queryName (Join [env.FileDir, req.queryName])
        (int64 (order.FileSize % 2 ^ 64)) (env.QueryAllOssPeerId st.ext)
        ((((cacheLookup env req.queryName st).2.log (.QueryFile req.queryName)).log
          (.QueryDealMap req.queryName)).log .QueryAllOssPeerId) = (false, st5) →
      getHandle env ch req st =
        release c1 (.JSON StatusInternalServerError (.str pendingOrderMessage), st5) := by
    intro st5 h
    rw [← hpeers] at h
    have h1 : tryGateways env req.queryName (Join [env.FileDir, req.queryName])
        (int64 (order.FileSize % 2 ^ 64))
        (env.QueryAllOssPeerId
          ((((cacheLookup env req.queryName st).2.log (.QueryFile req.queryName)).log
            (.QueryDealMap req.queryName)).log .QueryAllOssPeerId).ext)
        ((((cacheLookup env req.queryName st).2.log (.QueryFile req.queryName)).log
          (.QueryDealMap req.queryName)).log .QueryAllOssPeerId) = (false, st5) := h
    rw [hrun]
    simp only [transfer, h1]
    simp
  have hloop : ∀ (v : String) (rest : List String) (s : State σ) (size : Int),
      (∀ e, env.GetPeer s.ext v = .error e →
        tryGateways env req.queryName (Join [env.FileDir, req.queryName]) size (v :: rest) s =
          tryGateways env req.queryName (Join [env.FileDir, req.queryName]) size rest
            (s.log (.GetPeer v))) ∧
      (∀ addr, env.GetPeer s.ext v = .ok addr → env.ID = v →
        tryGateways env req.queryName (Join [env.FileDir, req.queryName]) size (v :: rest) s =
          tryGateways env req.queryName (Join [env.FileDir, req.queryName]) size rest
            (s.log (.GetPeer v))) ∧
      (∀ addr e w1, env.GetPeer s.ext v = .ok addr → env.ID ≠ v →
        env.Connect s.ext addr = (some e, w1) →
        tryGateways env req.queryName (Join [env.FileDir, req.queryName]) size (v :: rest) s =
          tryGateways env req.queryName (Join [env.FileDir, req.queryName]) size rest
            { fs := s.fs, ext := w1, trace := s.trace ++ [.GetPeer v, .Connect addr] }) ∧
      (∀ addr e w1 w2 fs2, env.GetPeer s.ext v = .ok addr → env.ID ≠ v →
        env.Connect s.ext addr = (none, w1) →
        env.ReadDataAction w1 s.fs addr.ID req.queryName (Join [env.FileDir, req.queryName])
          size = (some e, w2, fs2) →
        tryGateways env req.queryName (Join [env.FileDir, req.queryName]) size (v :: rest) s =
          tryGateways env req.queryName (Join [env.FileDir, req.queryName]) size rest
            { fs := fs2, ext := w2,
              trace := s.trace ++ [.GetPeer v, .Connect addr,
                .ReadDataAction addr.ID req.queryName (Join [env.FileDir, req.queryName])
                  size] }) ∧
      (∀ addr w1 w2 fs2, env.GetPeer s.ext v = .ok addr → env.ID ≠ v →
        env.Connect s.ext addr = (none, w1) →
        env.ReadDataAction w1 s.fs addr.ID req.queryName (Join [env.FileDir, req.queryName])
          size = (none, w2, fs2) →
        tryGateways env req.queryName (Join [env.FileDir, req.queryName]) size (v :: rest) s =
          (true,
            { fs := fs2, ext := w2,
              trace := s.trace ++ [.GetPeer v, .Connect addr,
                .ReadDataAction addr.ID req.queryName (Join [env.FileDir, req.queryName])
                  size] })) := by
    intro v rest s size
    refine ⟨?_, ?_, ?_, ?_, ?_⟩
    · intro e hpeer
      have h1 : env.GetPeer (s.log (.GetPeer v)).ext v = .error e := hpeer
      simp only [tryGateways, h1]
    · intro addr hpeer hself
      have h1 : env.GetPeer (s.log (.GetPeer v)).ext v = .ok addr := hpeer
      simp only [tryGateways, h1, hself, if_true]
    · intro addr e w1 hpeer hself hconn
      have h1 : env.GetPeer (s.log (.GetPeer v)).ext v = .ok addr := hpeer
      have h2 : env.Connect ((s.log (.GetPeer v)).log (.Connect addr)).ext addr =
          (some e, w1) := hconn
      simp only [tryGateways, h1, hself, if_false, h2]
      simp [State.log]
    · intro addr e w1 w2 fs2 hpeer hself hconn hread
      have h1 : env.GetPeer (s.log (.GetPeer v)).ext v = .ok addr := hpeer
      have h2 : env.Connect ((s.log (.GetPeer v)).log (.Connect addr)).ext addr =
          (none, w1) := hconn
      have h3 : env.ReadDataAction
          (({ (s.log (.GetPeer v)).log (.Connect addr) with ext := w1 } : State σ).log
            (.ReadDataAction addr.ID req.queryName (Join [env.FileDir, req.queryName])
              size)).ext
          (({ (s.log (.GetPeer v)).log (.Connect addr) with ext := w1 } : State σ).log
            (.ReadDataAction addr.ID req.queryName (Join [env.FileDir, req.queryName])
              size)).fs addr.ID req.queryName (Join [env.FileDir, req.queryName]) size =
          (some e, w2, fs2) := hread
      simp only [tryGateways, h1, hself, if_false, h2, h3]
      simp [State.log]
    · intro addr w1 w2 fs2 hpeer hself hconn hread
      have h1 : env.GetPeer (s.log (.GetPeer v)).ext v = .ok addr := hpeer
      have h2 : env.Connect ((s.log (.GetPeer v)).log (.Connect addr)).ext addr =
          (none, w1) := hconn
      have h3 : env.ReadDataAction
          (({ (s.log (.GetPeer v)).log (.Connect addr) with ext := w1 } : State σ).log
            (.ReadDataAction addr.ID req.queryName (Join [env.FileDir, req.queryName])
              size)).ext
          (({ (s.log (.GetPeer v)).log (.Connect addr) with ext := w1 } : State σ).log
            (.ReadDataAction addr.ID req.queryName (Join [env.FileDir, req.queryName])
              size)).fs addr.ID req.queryName (Join [env.FileDir, req.queryName]) size =
          (none, w2, fs2) := hread
      simp only [tryGateways, h1, hself, if_false, h2, h3]
      simp [State.log]
  refine ⟨pending_order_calls env ch c1 req st order htok hacc hlen hop hmiss hfile hdeal,
    hdelivered, hfailed, ?_, ?_, ?_, ?_⟩
  · intro v rest addr w1 w2 fs2 hlist hpeer hself hconn hread
    have hpeer1 : env.GetPeer
        ((((cacheLookup env req.queryName st).2.log (.QueryFile req.queryName)).log
          (.QueryDealMap req.queryName)).log .QueryAllOssPeerId).ext v = .ok addr := by
      show env.GetPeer (cacheLookup env req.queryName st).2.ext v = _
      rw [hext]
      exact hpeer
    have hconn1 : env.Connect
        ((((cacheLookup env req.queryName st).2.log (.QueryFile req.queryName)).log
          (.QueryDealMap req.queryName)).log .QueryAllOssPeerId).ext addr = (none, w1) := by
      show env.Connect (cacheLookup env req.queryName st).2.ext addr = _
      rw [hext]
      exact hconn
    have h := (hloop v rest
      ((((cacheLookup env req.queryName st).2.log (.QueryFile req.queryName)).log
        (.QueryDealMap req.queryName)).log .QueryAllOssPeerId)
      (int64 (order.FileSize % 2 ^ 64))).2.2.2.2 addr w1 w2 fs2 hpeer1 hself hconn1 hread
    rw [← hlist] at h
    have hg := hdelivered _ h
    obtain ⟨h1, _, h3⟩ := release_response c1
      (.File (Join [env.FileDir, req.queryName]) (fs2 (Join [env.FileDir, req.queryName])))
      { fs := (env.MoveFileToCache w2 fs2 req.queryName
          (Join [env.FileDir, req.queryName])).2.2,
        ext := (env.MoveFileToCache w2 fs2 req.queryName
          (Join [env.FileDir, req.queryName])).2.1,
        trace := ((((cacheLookup env req.queryName st).2.log (.QueryFile req.queryName)).log
          (.QueryDealMap req.queryName)).log .QueryAllOssPeerId).trace ++
            [.GetPeer v, .Connect addr,
              .ReadDataAction addr.ID req.queryName (Join [env.FileDir, req.queryName])
                (int64 (order.FileSize % 2 ^ 64))] ++
            [.MoveFileToCache req.queryName (Join [env.FileDir, req.queryName])] }
      (by simp)
    simp only at hg
    rw [hg, h1, h3 st]
    refine ⟨rfl, ?_, rfl, rfl⟩
    simp [State.log]
  · intro hall
    have hf := tryGateways_all_fail env req.queryName (Join [env.FileDir, req.queryName])
      (int64 (order.FileSize % 2 ^ 64)) (env.QueryAllOssPeerId st.ext)
      ((((cacheLookup env req.queryName st).2.log (.QueryFile req.queryName)).log
        (.QueryDealMap req.queryName)).log .QueryAllOssPeerId) hall
    rcases hg : tryGateways env req.queryName (Join [env.FileDir, req.queryName])
      (int64 (order.FileSize % 2 ^ 64)) (env.QueryAllOssPeerId st.ext)
      ((((cacheLookup env req.queryName st).2.log (.QueryFile req.queryName)).log
        (.QueryDealMap req.queryName)).log .QueryAllOssPeerId) with ⟨b, st5⟩
    rw [hg] at hf
    simp only at hf
    subst hf
    rw [hfailed st5 hg]
    exact (release_response c1 _ st5 (by simp)).1
  · intro peers s s5 h
    exact tryGateways_success env req.queryName (Join [env.FileDir, req.queryName])
      (int64 (order.FileSize % 2 ^ 64)) peers s s5 h
  · exact hloop

theorem pending_order_download_witness :
    (∃ resp st2 calls,
      getHandle (Demo.env Demo.pendingAlone) init Demo.download Demo.st0 =
        release { cap := 30, tokens := 29, closed := false } (resp, st2) ∧
      st2.trace = (cacheLookup (Demo.env Demo.pendingAlone) Demo.download.queryName
          Demo.st0).2.trace ++
        [.QueryFile Demo.download.queryName, .QueryDealMap Demo.download.queryName,
          .QueryAllOssPeerId] ++ calls ∧
      (∀ c ∈ calls, c.isFragmentLevel = false) ∧
      (resp = .JSON StatusInternalServerError (.str pendingOrderMessage) ∨
        ∃ content, resp = .File (Join [(Demo.env Demo.pendingAlone).FileDir,
          Demo.download.queryName]) content) ∧
      ((Demo.env Demo.pendingAlone).QueryAllOssPeerId Demo.st0.ext = [] →
        resp = .JSON StatusInternalServerError (.str pendingOrderMessage) ∧ calls = [])) ∧
    (getHandle (Demo.env Demo.pendingAlone) init Demo.download Demo.st0).response =
      some (.JSON StatusInternalServerError (.str pendingOrderMessage)) ∧
    (getHandle (Demo.env Demo.pendingOneGateway) init Demo.download Demo.st0).response =
      some (.File (Join ["file", Demo.fid])
        ((Demo.noFiles.write (Join ["file", Demo.fid]) [1, 2, 3, 4])
          (Join ["file", Demo.fid]))) :=
  ⟨(pending_order_download (Demo.env Demo.pendingAlone) init
      { cap := 30, tokens := 29, closed := false } Demo.download Demo.st0 { FileSize := 4 }
      (by decide) rfl (by decide) rfl (by decide) rfl rfl).1,
    (pending_order_download (Demo.env Demo.pendingAlone) init
      { cap := 30, tokens := 29, closed := false } Demo.download Demo.st0 { FileSize := 4 }
      (by decide) rfl (by decide) rfl (by decide) rfl rfl).2.2.2.2.1
      (fun v hv => by cases hv),
    ((pending_order_download (Demo.env Demo.pendingOneGateway) init
      { cap := 30, tokens := 29, closed := false } Demo.download Demo.st0 { FileSize := 4 }
      (by decide) rfl (by decide) rfl (by decide) rfl rfl).2.2.2.1
      "gateway1" [] { ID := "gateway1" } [] []
      (Demo.noFiles.write (Join ["file", Demo.fid]) [1, 2, 3, 4]) rfl rfl (by decide) rfl
      rfl).1⟩

/-- C6, as stated, fails: the identifier has only a pending order, and the download
resolves the peer gateway, connects to it, asks it for the whole file with the size of
the order, and answers the client with the bytes it got. -/
theorem pending_order_is_replicated :
    ((Demo.env Demo.pendingWithGateway).QueryFile Demo.st0.ext Demo.fid).toOption = none ∧
    ((Demo.env Demo.pendingWithGateway).QueryDealMap Demo.st0.ext Demo.fid).toOption =
      some { FileSize := 4 } ∧
    (cacheLookup (Demo.env Demo.pendingWithGateway) Demo.fid Demo.st0).1 = none ∧
    (getHandle (Demo.env Demo.pendingWithGateway) init Demo.download Demo.st0).response =
      some (.File (Join ["file", Demo.fid]) (some [1, 2, 3, 4])) ∧
    ((getHandle (Demo.env Demo.pendingWithGateway) init Demo.download Demo.st0).after
      Demo.st0).trace =
      [.GetCacheRecord Demo.fid, .QueryFile Demo.fid, .QueryDealMap Demo.fid,
        .QueryAllOssPeerId, .GetPeer "self", .GetPeer "gateway1",
        .Connect { ID := "gateway1" },
        .ReadDataAction "gateway1" Demo.fid (Join ["file", Demo.fid]) 4,
        .MoveFileToCache Demo.fid (Join ["file", Demo.fid])] := by
  decide

end handler

/-! ## The assembled file -/

section assembled

variable {σ : Type}

theorem cleanup_fragments_frame (basedir q : String) (fragments : List chain.FragmentInfo) :
    ∀ fs : FS, (∀ f ∈ fragments, Join [basedir, f.Hash] ≠ q) →
      (fragments.foldl (fun fs fragment => fs.remove (Join [basedir, fragment.Hash])) fs) q =
        fs q := by
  induction fragments with
  | nil =>
    intro fs _
    rfl
  | cons f rest ih =>
    intro fs h
    simp only [List.foldl_cons]
    rw [ih _ (fun g hg => h g (List.mem_cons_of_mem _ hg))]
    have hne : q ≠ Join [basedir, f.Hash] := fun e => h f (List.mem_cons_self _ _) e.symm
    simp [FS.remove, hne]

theorem cleanup_frame (basedir q : String) (segments : List chain.SegmentInfo) :
    ∀ fs : FS,
      (∀ seg ∈ segments, Join [basedir, seg.Hash] ≠ q ∧
        ∀ f ∈ seg.FragmentList, Join [basedir, f.Hash] ≠ q) →
      cleanup basedir segments fs q = fs q := by
  induction segments with
  | nil =>
    intro fs _
    rfl
  | cons seg rest ih =>
    intro fs h
    simp only [cleanup, List.foldl_cons]
    have hrest := ih
      (seg.FragmentList.foldl (fun fs fragment => fs.remove (Join [basedir, fragment.Hash]))
        (fs.remove (Join [basedir, seg.Hash])))
      (fun s hs => h s (List.mem_cons_of_mem _ hs))
    simp only [cleanup] at hrest
    rw [hrest]
    obtain ⟨h1, h2⟩ := h seg (List.mem_cons_self _ _)
    rw [cleanup_fragments_frame basedir q seg.FragmentList _ h2]
    have hne : q ≠ Join [basedir, seg.Hash] := fun e => h1 e.symm
    simp [FS.remove, hne]

theorem segment_files (dir userfile : String) (fs : FS) (segments : List chain.SegmentInfo)
    (segs : List Bytes)
    (hsegs : List.Forall₂ (fun seg s => fs (Join [dir, seg.Hash]) = some s) segments segs) :
    (∀ seg ∈ segments, Join [dir, seg.Hash] ≠ userfile) →
    List.Forall₂ (fun p s => p ≠ userfile ∧ fs p = some s)
      (segments.map (fun s => Join [dir, s.Hash])) segs := by
  induction hsegs with
  | nil =>
    intro _
    exact .nil
  | cons h _ ih =>
    intro hne
    exact .cons ⟨hne _ (List.mem_cons_self _ _), h⟩
      (ih (fun s hs => hne s (List.mem_cons_of_mem _ hs)))

theorem fetchFragment_frame (env : Env σ) (hT : TransfersKeepToPath env)
    (roothash dir : String) (k : Nat) (fragment : chain.FragmentInfo)
    (fragmentpaths : List String) (st : State σ) (q : String)
    (hq : q ≠ Join [dir, fragment.Hash]) :
    (fetchFragment env roothash dir k fragment fragmentpaths st).state.fs q = st.fs q := by
  unfold fetchFragment
  simp only
  split
  · split
    · split
      · rfl
      · split
        · rfl
        · split
          · rfl
          · rename_i addr _ _ w1 _
            have := hT w1 st.fs addr.ID roothash fragment.Hash (Join [dir, fragment.Hash])
              env.FragmentSize q hq
            exact this
    · split
      · rfl
      · split
        · rfl
        · simp [Step.state, FS.write, hq]
  · rfl

theorem fetchFragments_frame (env : Env σ) (hT : TransfersKeepToPath env)
    (roothash dir : String) (q : String) (fragments : List chain.FragmentInfo) :
    ∀ (k : Nat) (fragmentpaths : List String) (st : State σ),
      (∀ f ∈ fragments, Join [dir, f.Hash] ≠ q) →
      (fetchFragments env roothash dir k fragments fragmentpaths st).state.fs q = st.fs q := by
  induction fragments with
  | nil =>
    intro k fragmentpaths st _
    rfl
  | cons fragment rest ih =>
    intro k fragmentpaths st h
    have hq : q ≠ Join [dir, fragment.Hash] := fun e => h fragment (List.mem_cons_self _ _) e.symm
    have hframe := fetchFragment_frame env hT roothash dir k fragment fragmentpaths st q hq
    simp only [fetchFragments]
    cases hf : fetchFragment env roothash dir k fragment fragmentpaths st with
    | next p1 st1 =>
      rw [hf] at hframe
      simp only
      rw [ih (k + 1) p1 st1 (fun f hf => h f (List.mem_cons_of_mem _ hf))]
      exact hframe
    | abort e st1 =>
      rw [hf] at hframe
      exact hframe
    | panic st1 =>
      rw [hf] at hframe
      exact hframe

theorem fetchSegments_restored (env : Env σ) (hT : TransfersKeepToPath env)
    (hR : RestoresCanonical env) (roothash dir : String) (segments : List chain.SegmentInfo) :
    ∀ (fragmentpaths segmentspath sp : List String) (st st1 : State σ),
      SegmentsApart dir segments →
      fetchSegments env roothash dir segments fragmentpaths segmentspath st = .next sp st1 →
      (∀ q, (∀ seg ∈ segments, Join [dir, seg.Hash] ≠ q ∧
          ∀ f ∈ seg.FragmentList, Join [dir, f.Hash] ≠ q) → st1.fs q = st.fs q) ∧
      (∀ seg ∈ segments, ∃ s, st1.fs (Join [dir, seg.Hash]) = some s ∧
        s.length = env.SegmentSize) := by
  induction segments with
  | nil =>
    intro fragmentpaths segmentspath sp st st1 _ h
    simp only [fetchSegments] at h
    cases h
    exact ⟨fun _ _ => rfl, fun seg hseg => by cases hseg⟩
  | cons segment rest ih =>
    intro fragmentpaths segmentspath sp st st1 hapart h
    obtain ⟨hpair, hfrag⟩ := hapart
    have hrestApart : SegmentsApart dir rest :=
      ⟨(List.pairwise_cons.1 hpair).2,
        fun a ha b hb f hf =>
          hfrag a (List.mem_cons_of_mem _ ha) b (List.mem_cons_of_mem _ hb) f hf⟩
    simp only [fetchSegments] at h
    have hfr := fetchFragments_frame env hT roothash dir
    cases hf : fetchFragments env roothash dir 0 segment.FragmentList fragmentpaths st with
    | abort e st2 =>
      rw [hf] at h
      cases h
    | panic st2 =>
      rw [hf] at h
      cases h
    | next paths2 st2 =>
      rw [hf] at h
      simp only at h
      obtain ⟨hRframe, hRok⟩ := hR (st2.log (.RSRestore (Join [dir, segment.Hash]) paths2)).fs
        (Join [dir, segment.Hash]) paths2
      rcases hr : env.RSRestore (st2.log (.RSRestore (Join [dir, segment.Hash]) paths2)).fs
          (Join [dir, segment.Hash]) paths2 with ⟨e, fs2⟩
      rw [hr] at h hRframe hRok
      cases e with
      | some e =>
        simp only at h
        cases h
      | none =>
        simp only at h hRframe hRok
        obtain ⟨hframe, hgood⟩ := ih _ _ _ _ _ hrestApart h
        simp only at hframe
        have hst2 : ∀ q, (∀ f ∈ segment.FragmentList, Join [dir, f.Hash] ≠ q) →
            st2.fs q = st.fs q := by
          intro q hq
          have := hfr q segment.FragmentList 0 fragmentpaths st hq
          rw [hf] at this
          exact this
        constructor
        · intro q hq
          obtain ⟨hq1, hq2⟩ := hq segment (List.mem_cons_self _ _)
          rw [hframe q (fun seg hseg => hq seg (List.mem_cons_of_mem _ hseg)),
            hRframe q (fun e => hq1 e.symm)]
          exact hst2 q hq2
        · intro seg hseg
          rcases List.mem_cons.1 hseg with heq | hin
          · subst heq
            obtain ⟨s, hs, hl⟩ := hRok trivial
            refine ⟨s, ?_, hl⟩
            rw [hframe (Join [dir, seg.Hash]) (fun b hb =>
              ⟨fun e => (List.pairwise_cons.1 hpair).1 b hb e.symm,
                fun f hf => hfrag seg (List.mem_cons_self _ _) b
                  (List.mem_cons_of_mem _ hb) f hf⟩)]
            exact hs
          · exact hgood seg hin

theorem restored_segments (fs : FS) (dir : String) (S : Nat)
    (segments : List chain.SegmentInfo)
    (h : ∀ seg ∈ segments, ∃ s, fs (Join [dir, seg.Hash]) = some s ∧ s.length = S) :
    ∃ segs : List Bytes,
      List.Forall₂ (fun seg s => fs (Join [dir, seg.Hash]) = some s) segments segs ∧
      ∀ s ∈ segs, s.length = S := by
  induction segments with
  | nil => exact ⟨[], .nil, fun s hs => by cases hs⟩
  | cons seg rest ih =>
    obtain ⟨s, hs, hl⟩ := h seg (List.mem_cons_self _ _)
    obtain ⟨segs, hall, hlen⟩ := ih (fun a ha => h a (List.mem_cons_of_mem _ ha))
    refine ⟨s :: segs, .cons hs hall, ?_⟩
    intro x hx
    rcases List.mem_cons.1 hx with rfl | hx
    · exact hl
    · exact hlen x hx

/-- C2. Take a run of `fetchFiles` that gets through the fetch phase for metadata whose
number of segments fits the declared size, with the output path apart from the segment
and fragment paths. Given the reconstructed segments of the canonical size on disk in
declared order and the output file as created, `fetchFiles` returns the output path and
the output holds every segment but the last in full followed by the first
`FileSize - lastIndex * SegmentSize` bytes of the last: exactly the declared size. The
segments are there in that form whenever a transfer writes only the file it is asked
for, the codec writes only its output and a segment of the canonical size, and the
segment files are kept apart. -/
theorem assembled_file_length (env : Env σ) (roothash dir cipher : String) (st : State σ)
    (fmeta : chain.FileMetadata)
    (hnone : st.fs (Join [dir, roothash]) = none)
    (hcreate : env.createErr (Join [dir, roothash]) = none)
    (hmeta : env.QueryFile st.ext roothash = .ok fmeta)
    (howner : ownerCopy env roothash fmeta.Owner (fetchStart roothash dir st).fs = none)
    (hfetch : (fetchSegments env roothash dir fmeta.SegmentList
      (List.replicate (env.DataShards + env.ParShards) "") []
      (fetchStart roothash dir st)).result ≠ none)
    (hapart : ∀ seg ∈ fmeta.SegmentList, Join [dir, seg.Hash] ≠ Join [dir, roothash] ∧
      ∀ f ∈ seg.FragmentList, Join [dir, f.Hash] ≠ Join [dir, roothash])
    (hF : fmeta.FileSize < 2 ^ 64)
    (hlo : (fmeta.SegmentList.length - 1) * env.SegmentSize ≤ fmeta.FileSize)
    (hhi : fmeta.FileSize ≤ fmeta.SegmentList.length * env.SegmentSize) :
    (∀ segs : List Bytes,
      (fetchSegments env roothash dir fmeta.SegmentList
        (List.replicate (env.DataShards + env.ParShards) "") []
        (fetchStart roothash dir st)).state.fs (Join [dir, roothash]) = some [] →
      List.Forall₂
        (fun seg s => (fetchSegments env roothash dir fmeta.SegmentList
          (List.replicate (env.DataShards + env.ParShards) "") []
          (fetchStart roothash dir st)).state.fs (Join [dir, seg.Hash]) = some s)
        fmeta.SegmentList segs →
      (∀ s ∈ segs, s.length = env.SegmentSize) →
      (fetchFiles env roothash dir cipher st).1 = .ok (Join [dir, roothash]) ∧
      (fetchFiles env roothash dir cipher st).2.fs (Join [dir, roothash]) =
        some (concatBytes segs.dropLast ++ (segs.getLast?.getD []).take
          (fmeta.FileSize - (fmeta.SegmentList.length - 1) * env.SegmentSize)) ∧
      (concatBytes segs.dropLast ++ (segs.getLast?.getD []).take
        (fmeta.FileSize - (fmeta.SegmentList.length - 1) * env.SegmentSize)).length =
        fmeta.FileSize) ∧
    (TransfersKeepToPath env → RestoresCanonical env → SegmentsApart dir fmeta.SegmentList →
      ∃ content : Bytes,
        (fetchFiles env roothash dir cipher st).1 = .ok (Join [dir, roothash]) ∧
        (fetchFiles env roothash dir cipher st).2.fs (Join [dir, roothash]) = some content ∧
        content.length = fmeta.FileSize) := by
  cases hs : fetchSegments env roothash dir fmeta.SegmentList
      (List.replicate (env.DataShards + env.ParShards) "") [] (fetchStart roothash dir st) with
  | abort e st1 =>
    rw [hs] at hfetch
    exact absurd rfl hfetch
  | panic st1 =>
    rw [hs] at hfetch
    exact absurd rfl hfetch
  | next sp st1 =>
    have hsp := fetchSegments_next env roothash dir fmeta.SegmentList _ _ sp _ st1 hs
    simp only [List.nil_append] at hsp
    have hlen : sp.length = fmeta.SegmentList.length := by rw [hsp]; simp
    -- the assembly loop on the segments the fetch phase left
    have hloop : ∀ (paths : List String) (segs : List Bytes) (wc : Nat) (fs : FS) (acc : Bytes),
        List.Forall₂ (fun p s => p ≠ Join [dir, roothash] ∧ st1.fs p = some s) paths segs →
        (∀ s ∈ segs, s.length = env.SegmentSize) →
        (∀ q, q ≠ Join [dir, roothash] → fs q = st1.fs q) →
        fs (Join [dir, roothash]) = some acc →
        wc + segs.length = fmeta.SegmentList.length →
        ∃ fs1, writeSegments env.SegmentSize fmeta.FileSize fmeta.SegmentList.length
            (Join [dir, roothash]) paths wc fs = .done fmeta.SegmentList.length fs1 ∧
          fs1 (Join [dir, roothash]) = some (acc ++ (concatBytes segs.dropLast ++
            (segs.getLast?.getD []).take
              (fmeta.FileSize - (fmeta.SegmentList.length - 1) * env.SegmentSize))) := by
      intro paths
      induction paths with
      | nil =>
        intro segs wc fs acc hall _ _ hacc hwc
        cases hall
        simp only [List.length_nil, Nat.add_zero] at hwc
        subst hwc
        exact ⟨fs, by simp [writeSegments], by simp [hacc, concatBytes]⟩
      | cons p ps ih =>
        intro segs wc fs acc hall hcanon hfs hacc hwc
        cases hall with
        | cons hp hrest =>
          rename_i s ss
          have hps : fs p = some s := by rw [hfs p hp.1]; exact hp.2
          have hslen : s.length = env.SegmentSize := hcanon s (List.mem_cons_self _ _)
          cases ss with
          | nil =>
            cases hrest
            simp only [List.length_cons, List.length_nil] at hwc
            have hwc1 : wc = fmeta.SegmentList.length - 1 := by omega
            have hmul : wc * env.SegmentSize ≤ fmeta.FileSize := by rw [hwc1]; exact hlo
            have hle : fmeta.FileSize - wc * env.SegmentSize ≤ env.SegmentSize := by
              have : fmeta.SegmentList.length * env.SegmentSize =
                  (fmeta.SegmentList.length - 1) * env.SegmentSize + env.SegmentSize := by
                have : fmeta.SegmentList.length = (fmeta.SegmentList.length - 1) + 1 := by
                  omega
                conv_lhs => rw [this]
                ring
              rw [hwc1]; omega
            have hlast : lastSegmentBytes fmeta.FileSize env.SegmentSize wc =
                fmeta.FileSize - wc * env.SegmentSize := by
              unfold lastSegmentBytes
              have h1 : fmeta.FileSize % 2 ^ 64 = fmeta.FileSize := Nat.mod_eq_of_lt hF
              have h2 : (wc * env.SegmentSize) % 2 ^ 64 = wc * env.SegmentSize :=
                Nat.mod_eq_of_lt (by omega)
              rw [h1, h2]
              have h3 : fmeta.FileSize + 2 ^ 64 - wc * env.SegmentSize =
                  (fmeta.FileSize - wc * env.SegmentSize) + 2 ^ 64 := by omega
              rw [h3, Nat.add_mod_right]
              exact Nat.mod_eq_of_lt (by omega)
            have hslice : sliceTo s (fmeta.FileSize - wc * env.SegmentSize) =
                some (s.take (fmeta.FileSize - wc * env.SegmentSize)) := by
              unfold sliceTo readFileCap
              have h1 : fmeta.FileSize - wc * env.SegmentSize ≤ max 512 (s.length + 1) := by
                rw [hslen]; omega
              have h2 : fmeta.FileSize - wc * env.SegmentSize - s.length = 0 := by
                rw [hslen]; omega
              simp [h1, h2]
            have hge : wc + 1 ≥ fmeta.SegmentList.length := by omega
            refine ⟨fs.append (Join [dir, roothash])
              (s.take (fmeta.FileSize - wc * env.SegmentSize)), ?_, ?_⟩
            · simp only [writeSegments, hps, hge, if_true, hlast, hslice]
              rw [show wc + 1 = fmeta.SegmentList.length by omega]
            · simp [FS.append, hacc, FS.write, concatBytes, hwc1]
          | cons s2 ss2 =>
            simp only [List.length_cons] at hwc
            have hlt : ¬ (wc + 1 ≥ fmeta.SegmentList.length) := by omega
            have hacc1 : (fs.append (Join [dir, roothash]) s) (Join [dir, roothash]) =
                some (acc ++ s) := by
              simp [FS.append, hacc, FS.write]
            have hfs1 : ∀ q, q ≠ Join [dir, roothash] →
                (fs.append (Join [dir, roothash]) s) q = st1.fs q := by
              intro q hq
              simp [FS.append, hacc, FS.write, hq, hfs q hq]
            obtain ⟨fs1, hrun, hout⟩ :=
              ih (s2 :: ss2) (wc + 1) (fs.append (Join [dir, roothash]) s) (acc ++ s) hrest
                (fun x hx => hcanon x (List.mem_cons_of_mem _ hx)) hfs1 hacc1
                (by simp only [List.length_cons]; omega)
            refine ⟨fs1, ?_, ?_⟩
            · simp only [writeSegments, hps, hlt, if_false]
              exact hrun
            · rw [hout]
              simp [concatBytes, List.append_assoc]
    -- what `fetchFiles` returns once the loop is done
    have hmeta1 : env.QueryFile
        (State.log { st with fs := st.fs.write (Join [dir, roothash]) [] }
          (.QueryFile roothash)).ext roothash = .ok fmeta := hmeta
    have howner1 : ownerCopy env roothash fmeta.Owner
        (State.log { st with fs := st.fs.write (Join [dir, roothash]) [] }
          (.QueryFile roothash)).fs = none := howner
    have hs1 : fetchSegments env roothash dir fmeta.SegmentList
        (List.replicate (env.DataShards + env.ParShards) "") []
        (State.log { st with fs := st.fs.write (Join [dir, roothash]) [] }
          (.QueryFile roothash)) = .next sp st1 := hs
    have hA : ∀ segs : List Bytes, st1.fs (Join [dir, roothash]) = some [] →
        List.Forall₂ (fun seg s => st1.fs (Join [dir, seg.Hash]) = some s)
          fmeta.SegmentList segs →
        (∀ s ∈ segs, s.length = env.SegmentSize) →
        (fetchFiles env roothash dir cipher st).1 = .ok (Join [dir, roothash]) ∧
        (fetchFiles env roothash dir cipher st).2.fs (Join [dir, roothash]) =
          some (concatBytes segs.dropLast ++ (segs.getLast?.getD []).take
            (fmeta.FileSize - (fmeta.SegmentList.length - 1) * env.SegmentSize)) ∧
        (concatBytes segs.dropLast ++ (segs.getLast?.getD []).take
          (fmeta.FileSize - (fmeta.SegmentList.length - 1) * env.SegmentSize)).length =
          fmeta.FileSize := by
      intro segs hout hsegs hcanon
      have hlenS : fmeta.SegmentList.length = segs.length := hsegs.length_eq
      have hpaths := segment_files dir (Join [dir, roothash]) st1.fs fmeta.SegmentList segs
        hsegs (fun seg h => (hapart seg h).1)
      rw [← hsp] at hpaths
      obtain ⟨fs1, hrun, hfile⟩ := hloop sp segs 0 st1.fs [] hpaths hcanon (fun _ _ => rfl)
        hout (by omega)
      have hff : fetchFiles env roothash dir cipher st =
          (.ok (Join [dir, roothash]),
            { st1 with fs := cleanup dir fmeta.SegmentList fs1 }) := by
        simp only [fetchFiles, hnone, hcreate, hmeta1, howner1, hs1, hlen, ne_eq,
          not_true_eq_false, if_false, hrun]
      rw [hff]
      refine ⟨rfl, ?_, ?_⟩
      · show cleanup dir fmeta.SegmentList fs1 (Join [dir, roothash]) = _
        rw [cleanup_frame dir (Join [dir, roothash]) fmeta.SegmentList fs1 hapart, hfile]
        simp
      · rw [hlenS] at hlo hhi ⊢
        exact assembled_length env.SegmentSize fmeta.FileSize segs hcanon hlo hhi
    constructor
    · intro segs hout hsegs hcanon
      exact hA segs hout hsegs hcanon
    · intro hT hR hA2
      obtain ⟨hframe, hgood⟩ :=
        fetchSegments_restored env hT hR roothash dir fmeta.SegmentList _ _ sp _ st1 hA2 hs
      obtain ⟨segs, hall, hcanon⟩ :=
        restored_segments st1.fs dir env.SegmentSize fmeta.SegmentList hgood
      have hout : st1.fs (Join [dir, roothash]) = some [] := by
        rw [hframe (Join [dir, roothash]) hapart]
        simp [fetchStart, State.log, FS.write]
      have hres := hA segs hout hall hcanon
      exact ⟨_, hres.1, hres.2.1, hres.2.2⟩

theorem assembled_file_length_witness :
    ((fetchFiles (Demo.env Demo.healthy) Demo.fid "file" "" Demo.st0).1 =
        .ok (Join ["file", Demo.fid]) ∧
      (fetchFiles (Demo.env Demo.healthy) Demo.fid "file" "" Demo.st0).2.fs
        (Join ["file", Demo.fid]) = some [1, 2, 3, 4] ∧
      ([1, 2, 3, 4] : Bytes).length = Demo.fmeta.FileSize) ∧
    ∃ content : Bytes,
      (fetchFiles (Demo.envRestoring Demo.healthy) Demo.fid "file" "" Demo.st0).1 =
        .ok (Join ["file", Demo.fid]) ∧
      (fetchFiles (Demo.envRestoring Demo.healthy) Demo.fid "file" "" Demo.st0).2.fs
        (Join ["file", Demo.fid]) = some content ∧
      content.length = Demo.fmeta.FileSize :=
  ⟨(assembled_file_length (Demo.env Demo.healthy) Demo.fid "file" "" Demo.st0 Demo.fmeta
      (by decide) rfl rfl (by decide) (by decide) (by decide) (by decide) (by decide)
      (by decide)).1 [[1, 2, 3, 4]] (by decide) (.cons (by decide) .nil) (by decide),
    (assembled_file_length (Demo.envRestoring Demo.healthy) Demo.fid "file" "" Demo.st0
      Demo.fmeta (by decide) rfl rfl (by decide) (by decide) (by decide) (by decide)
      (by decide) (by decide)).2
      (fun w fs peer roothash fragment fpath size q hq => by
        simp [Demo.envRestoring, Demo.env, FS.write, hq])
      (fun fs outpath shards => by
        constructor
        · intro q hq
          simp only [Demo.envRestoring]
          split
          · simp [FS.write, hq]
          · rfl
        · intro hok
          simp only [Demo.envRestoring] at hok ⊢
          split at hok
          · rename_i hc
            simp only [hc, if_true]
            exact ⟨[1, 2, 3, 4], by simp [FS.write], rfl⟩
          · cases hok)
      (by unfold SegmentsApart; decide)⟩

/-- C2, as stated, fails for a declared size that does not fit the segments. With no
segment listed and 1 byte declared, `fetchFiles` returns the output path without error
and the output is empty. With two reconstructed segments of 4 bytes and 2 bytes
declared, the first segment is written in full, the bound of the last write is
`2 - 4` in `uint64`, and the slice expression panics. -/
theorem assembly_needs_fitting_size :
    Demo.noSegments.FileSize = 1 ∧
    (fetchFiles (Demo.envWith Demo.healthy Demo.noSegments) Demo.fid "file" "" Demo.st0).1 =
      .ok (Join ["file", Demo.fid]) ∧
    (fetchFiles (Demo.envWith Demo.healthy Demo.noSegments) Demo.fid "file" "" Demo.st0).2.fs
      (Join ["file", Demo.fid]) = some [] ∧
    Demo.declaredShort.FileSize = 2 ∧ Demo.declaredShort.SegmentList.length = 2 ∧
    (Demo.envWith Demo.healthy Demo.declaredShort).SegmentSize = 4 ∧
    lastSegmentBytes 2 4 1 = 2 ^ 64 - 2 ∧
    (fetchFiles (Demo.envWith Demo.healthy Demo.declaredShort) Demo.fid "file" ""
      Demo.st0).1 = .panic ∧
    (fetchFiles (Demo.envWith Demo.healthy Demo.declaredShort) Demo.fid "file" ""
      Demo.st0).2.fs (Join ["file", Demo.fid]) = some [1, 2, 3, 4] := by
  decide

end assembled


end DeOSS
